import Mathlib

/-
  Verification development for the markdown-parser repository
  (src/lib/parser.ts, src/lib/parseTextBody.ts).

  Strings are modelled as `List Char`.  JavaScript quirks that matter for
  the claims are modelled explicitly:
    * `undefined` values arising from indexing an empty string
      (`headText[0]` on the empty string) are modelled as `Option`; string
      concatenation with `undefined` produces the text "undefined"
      (`jsCoerce`), while `x ?? ''` produces the empty string (`jsOrEmpty`).
    * the TypeError thrown by `result[result.length - 1].style` when
      `result` is empty is modelled by returning `none`.
  Regular expressions are hand-compiled to executable matchers over
  `List Char`, following the exact backtracking semantics of each pattern.
-/

set_option linter.unusedVariables false
set_option maxRecDepth 16384

/-- The character ``` (backtick), written via its code point. -/
def backquote : Char := Char.ofNat 96

/-- The single-quote character. -/
def singleQuote : Char := Char.ofNat 39

/-- The double-quote character. -/
def doubleQuote : Char := Char.ofNat 34

/-- Inline text styles, from `definition.ts` (`TextBodyStyle`). -/
inductive TextBodyStyle where
  | plain
  | italic
  | strong
  | code
deriving DecidableEq

/-- An inline text run (`TextBody` in `definition.ts`): a style plus a string
value.  The value is `Option` because the JavaScript code can store an
`undefined` first character (`headText[0]` of an empty string) in a run. -/
structure TextBody where
  style : TextBodyStyle
  value : Option (List Char)
deriving DecidableEq

/-- JavaScript `x ?? ''` on a possibly-undefined string. -/
def jsOrEmpty : Option (List Char) → List Char
  | some s => s
  | none => []

/-- JavaScript string concatenation `s + x` where `x` is a possibly-undefined
string: `undefined` is coerced to the text "undefined". -/
def jsCoerce : Option (List Char) → List Char
  | some s => s
  | none => ("undefined").toList

/-- JavaScript string concatenation `s + first` where `first` is a
possibly-undefined character (`headText[0]`). -/
def jsAppendChar (s : List Char) : Option Char → List Char
  | some c => s ++ [c]
  | none => s ++ ("undefined").toList

/-- `checkHeadStyle` (identical in parser.ts lines 233-252 and
parseTextBody.ts lines 93-112): classify the head of the text by testing,
in order, `^\*{2}`, `^\*{1}`, `^_{1}`, `` ^`{1} ``, and strip the marker. -/
def checkHeadStyle (t : List Char) : TextBodyStyle × List Char :=
  if t.take 2 = ['*', '*'] then (.strong, t.drop 2)
  else if t.take 1 = ['*'] then (.italic, t.drop 1)
  else if t.take 1 = ['_'] then (.italic, t.drop 1)
  else if t.take 1 = [backquote] then (.code, t.drop 1)
  else (.plain, t)

/-- The literal marker re-inserted by the unterminated-run merge branch of
parser.ts (lines 127-132): backtick for code, `**` for strong, and `_`
otherwise (in particular for italic, whichever character opened it). -/
def unterminatedMark : TextBodyStyle → List Char
  | .code => [backquote]
  | .strong => ['*', '*']
  | _ => ['_']

/-- `parseTextBodyStyle` from parser.ts (lines 115-231).  State: remaining
`text`, optional current run `progress` (style, accumulated text), finished
runs `result`.  Returns `none` exactly when the JavaScript code throws a
TypeError: at end of input with a non-plain open run and an empty `result`,
the code reads `result[result.length - 1].style` of `undefined`. -/
def parseTextBodyStyle (text : List Char)
    (progress : Option (TextBodyStyle × Option (List Char)))
    (result : List TextBody) : Option (List TextBody) :=
  match text with
  | [] =>
    match progress with
    | none => some result
    | some (pst, ptx) =>
      if pst = TextBodyStyle.plain then
        some (result ++ [⟨pst, ptx⟩])
      else
        match result.getLast? with
        | none => none
        | some lastRun =>
          if lastRun.style = TextBodyStyle.plain then
            some (result.dropLast ++
              [⟨.plain, some (jsCoerce lastRun.value ++ unterminatedMark pst ++ jsCoerce ptx)⟩])
          else
            some (result ++ [⟨pst, ptx⟩])
  | c :: tl =>
    match hck : checkHeadStyle (c :: tl) with
    | (headStyle, headText) =>
      match progress with
      | none =>
        parseTextBodyStyle headText.tail
          (some (headStyle, headText.head?.map (fun ch => [ch]))) result
      | some (progressStyle, ptx) =>
        if hps : progressStyle = TextBodyStyle.plain then
          if headStyle = TextBodyStyle.plain then
            parseTextBodyStyle headText.tail
              (some (.plain, some (jsAppendChar (jsOrEmpty ptx) headText.head?))) result
          else
            parseTextBodyStyle headText.tail
              (some (headStyle, headText.head?.map (fun ch => [ch])))
              (result ++ [⟨.plain, ptx⟩])
        else
          if hhp : headStyle = progressStyle then
            parseTextBodyStyle headText none
              (result ++ [⟨progressStyle, some (jsOrEmpty ptx)⟩])
          else
            parseTextBodyStyle headText.tail
              (some (progressStyle, some (jsAppendChar (jsOrEmpty ptx) headText.head?))) result
termination_by text.length
decreasing_by
  all_goals unfold checkHeadStyle at hck
  all_goals repeat' split at hck
  all_goals injection hck with h1 h2
  all_goals first
    | (subst h2
       simp only [List.length_tail, List.length_drop, List.length_cons]
       omega)
    | exact absurd (hhp.symm.trans h1.symm) hps

/-- `parseTextBodyStyle` from parseTextBody.ts (lines 23-91), the standalone
duplicate: the scanning loop is identical, but at end of input it simply
appends the open run (no unterminated-run merge, no possible TypeError). -/
def standaloneParseTextBodyStyle (text : List Char)
    (progress : Option (TextBodyStyle × Option (List Char)))
    (result : List TextBody) : List TextBody :=
  match text with
  | [] =>
    match progress with
    | none => result
    | some (pst, ptx) => result ++ [⟨pst, ptx⟩]
  | c :: tl =>
    match hck : checkHeadStyle (c :: tl) with
    | (headStyle, headText) =>
      match progress with
      | none =>
        standaloneParseTextBodyStyle headText.tail
          (some (headStyle, headText.head?.map (fun ch => [ch]))) result
      | some (progressStyle, ptx) =>
        if hps : progressStyle = TextBodyStyle.plain then
          if headStyle = TextBodyStyle.plain then
            standaloneParseTextBodyStyle headText.tail
              (some (.plain, some (jsAppendChar (jsOrEmpty ptx) headText.head?))) result
          else
            standaloneParseTextBodyStyle headText.tail
              (some (headStyle, headText.head?.map (fun ch => [ch])))
              (result ++ [⟨.plain, ptx⟩])
        else
          if hhp : headStyle = progressStyle then
            standaloneParseTextBodyStyle headText none
              (result ++ [⟨progressStyle, some (jsOrEmpty ptx)⟩])
          else
            standaloneParseTextBodyStyle headText.tail
              (some (progressStyle, some (jsAppendChar (jsOrEmpty ptx) headText.head?))) result
termination_by text.length
decreasing_by
  all_goals unfold checkHeadStyle at hck
  all_goals repeat' split at hck
  all_goals injection hck with h1 h2
  all_goals first
    | (subst h2
       simp only [List.length_tail, List.length_drop, List.length_cons]
       omega)
    | exact absurd (hhp.symm.trans h1.symm) hps

/-- Proof device (not a source function): the scanning loop shared verbatim
by the two `parseTextBodyStyle` implementations, stopped at end of input
without applying either end-of-input branch.  Returns the final
(progress, result) pair. -/
def scanLoop (text : List Char)
    (progress : Option (TextBodyStyle × Option (List Char)))
    (result : List TextBody) :
    Option (TextBodyStyle × Option (List Char)) × List TextBody :=
  match text with
  | [] => (progress, result)
  | c :: tl =>
    match hck : checkHeadStyle (c :: tl) with
    | (headStyle, headText) =>
      match progress with
      | none =>
        scanLoop headText.tail
          (some (headStyle, headText.head?.map (fun ch => [ch]))) result
      | some (progressStyle, ptx) =>
        if hps : progressStyle = TextBodyStyle.plain then
          if headStyle = TextBodyStyle.plain then
            scanLoop headText.tail
              (some (.plain, some (jsAppendChar (jsOrEmpty ptx) headText.head?))) result
          else
            scanLoop headText.tail
              (some (headStyle, headText.head?.map (fun ch => [ch])))
              (result ++ [⟨.plain, ptx⟩])
        else
          if hhp : headStyle = progressStyle then
            scanLoop headText none
              (result ++ [⟨progressStyle, some (jsOrEmpty ptx)⟩])
          else
            scanLoop headText.tail
              (some (progressStyle, some (jsAppendChar (jsOrEmpty ptx) headText.head?))) result
termination_by text.length
decreasing_by
  all_goals unfold checkHeadStyle at hck
  all_goals repeat' split at hck
  all_goals injection hck with h1 h2
  all_goals first
    | (subst h2
       simp only [List.length_tail, List.length_drop, List.length_cons]
       omega)
    | exact absurd (hhp.symm.trans h1.symm) hps

/-- Proof device: the end-of-input branch of parser.ts `parseTextBodyStyle`
(lines 120-161) as a standalone function of the final scan state. -/
def finishEmbedded (progress : Option (TextBodyStyle × Option (List Char)))
    (result : List TextBody) : Option (List TextBody) :=
  match progress with
  | none => some result
  | some (pst, ptx) =>
    if pst = TextBodyStyle.plain then
      some (result ++ [⟨pst, ptx⟩])
    else
      match result.getLast? with
      | none => none
      | some lastRun =>
        if lastRun.style = TextBodyStyle.plain then
          some (result.dropLast ++
            [⟨.plain, some (jsCoerce lastRun.value ++ unterminatedMark pst ++ jsCoerce ptx)⟩])
        else
          some (result ++ [⟨pst, ptx⟩])

/-- Proof device: the end-of-input branch of the standalone tokenizer. -/
def finishStandalone (progress : Option (TextBodyStyle × Option (List Char)))
    (result : List TextBody) : List TextBody :=
  match progress with
  | none => result
  | some (pst, ptx) => result ++ [⟨pst, ptx⟩]

/-- `Link` from `definition.ts`: a link span with a tokenized label body
and a url. -/
structure Link where
  body : List TextBody
  url : List Char
deriving DecidableEq

/-- An element of the `(string | Link)[]` union returned by
`parseLinkInText`. -/
inductive LinkSegment where
  | strSeg (s : List Char)
  | linkSeg (l : Link)
deriving DecidableEq

/-- An element of the `(TextBody | Link)[]` union returned by
`parseTextBody`. -/
inductive Span where
  | textSpan (r : TextBody)
  | linkSpan (l : Link)
deriving DecidableEq

/-- Hand-compiled lazy `.+?\)` tail: after the first url character, collect
characters up to the first `)`; `.` never matches a newline. -/
def lazyCloseParen : List Char → Option (List Char × List Char)
  | [] => none
  | c :: t =>
    if c = ')' then some ([], t)
    else if c = '\n' then none
    else (lazyCloseParen t).map (fun pr => (c :: pr.1, pr.2))

/-- Hand-compiled `\((.+?)\)` body after the `(`: a non-empty run of
non-newline characters up to the first `)` at index at least 1.
Returns (url, rest after the closing paren). -/
def findUrl : List Char → Option (List Char × List Char)
  | [] => none
  | c :: t =>
    if c = '\n' then none
    else (lazyCloseParen t).map (fun pr => (c :: pr.1, pr.2))

/-- Completion attempt at a `]` candidate inside `\[.+?\]\(.+?\)`: the text
after the `]` must start with `(` followed by a url and `)`. -/
def tryCloseLabel (accRev t : List Char) :
    Option (List Char × List Char × List Char) :=
  match t with
  | '(' :: u => (findUrl u).map (fun pr => (accRev.reverse, pr.1, pr.2))
  | _ => none

/-- Hand-compiled label search for `\[.+?\]\(.+?\)` after the opening `[`:
scan forward accumulating label characters (reversed in `accRev`); at each
`]` with a non-empty label so far, try to complete the match with `(`,
a url and `)`; on failure the `]` becomes a label character (regex
backtracking).  Returns (label, url, rest after the whole match). -/
def scanLabel (accRev : List Char) :
    List Char → Option (List Char × List Char × List Char)
  | [] => none
  | c :: t =>
    if c = '\n' then none
    else if c = ']' then
      match accRev with
      | [] => scanLabel [c] t
      | _ :: _ =>
        match tryCloseLabel accRev t with
        | some res => some res
        | none => scanLabel (c :: accRev) t
    else scanLabel (c :: accRev) t

/-- Hand-compiled unanchored leftmost match of `linkRegexp`
`/\[.+?\]\(.+?\)/` (parser.ts line 87): returns
(text before the match, label, url, text after the match), or `none`. -/
def findLink : List Char → Option (List Char × List Char × List Char × List Char)
  | [] => none
  | c :: t =>
    if c = '[' then
      match scanLabel [] t with
      | some (label, url, rest) => some ([], label, url, rest)
      | none =>
        (findLink t).map (fun q => (c :: q.1, q.2.1, q.2.2.1, q.2.2.2))
    else
      (findLink t).map (fun q => (c :: q.1, q.2.1, q.2.2.1, q.2.2.2))

/-- Largest index `j ≥ 1` such that `l.get? j = some c`, within `l`. -/
def lastIdxFromOne (c : Char) (l : List Char) : Option Nat :=
  ((List.range l.length).filter
    (fun j => decide (1 ≤ j) && decide (l.get? j = some c))).getLast?

/-- Hand-compiled greedy group of `/\[(.+)\]/` (resp. `/\((.+)\)/` with other
delimiters): at the leftmost viable opening delimiter, the greedy `(.+)`
(non-newline) runs to the last closing delimiter in the same line. -/
def greedyGroup (openc closec : Char) : List Char → Option (List Char)
  | [] => none
  | c :: t =>
    if c = openc then
      match lastIdxFromOne closec (t.takeWhile (fun c2 => c2 ≠ '\n')) with
      | some j => some ((t.takeWhile (fun c2 => c2 ≠ '\n')).take j)
      | none => greedyGroup openc closec t
    else greedyGroup openc closec t

/-- The JavaScript `.filter(Boolean)` applied by `parseLinkInText`: empty
strings are dropped, link objects are kept. -/
def filterTruthy (segs : List LinkSegment) : List LinkSegment :=
  segs.filter (fun seg =>
    match seg with
    | .strSeg [] => false
    | _ => true)

theorem lazyCloseParen_length :
    ∀ t u r : List Char, lazyCloseParen t = some (u, r) → r.length < t.length := by
  intro t
  induction t with
  | nil => intro u r h; simp [lazyCloseParen] at h
  | cons c t ih =>
    intro u r h
    simp only [lazyCloseParen] at h
    split at h
    · simp only [Option.some.injEq, Prod.mk.injEq] at h
      obtain ⟨h1, h2⟩ := h
      subst h2; simp
    · split at h
      · simp at h
      · match h3 : lazyCloseParen t with
        | none => rw [h3] at h; simp at h
        | some (u2, r2) =>
          rw [h3] at h
          simp at h
          obtain ⟨h1, h2⟩ := h
          subst h2
          have := ih u2 r2 h3
          simp only [List.length_cons]
          omega

theorem findUrl_length :
    ∀ t u r : List Char, findUrl t = some (u, r) → r.length < t.length := by
  intro t u r h
  match t with
  | [] => simp [findUrl] at h
  | c :: t2 =>
    simp only [findUrl] at h
    split at h
    · simp at h
    · match h3 : lazyCloseParen t2 with
      | none => rw [h3] at h; simp at h
      | some (u2, r2) =>
        rw [h3] at h
        simp at h
        obtain ⟨h1, h2⟩ := h
        subst h2
        have := lazyCloseParen_length t2 u2 r2 h3
        simp only [List.length_cons]
        omega

theorem tryCloseLabel_length :
    ∀ accRev t l u r, tryCloseLabel accRev t = some (l, u, r) → r.length < t.length := by
  intro accRev t l u r h
  match t with
  | [] => exact Option.noConfusion h
  | c :: t2 =>
    by_cases hc : c = '('
    · subst hc
      rw [tryCloseLabel] at h
      match h3 : findUrl t2 with
      | none => rw [h3] at h; exact Option.noConfusion h
      | some (u2, r2) =>
        rw [h3] at h
        simp at h
        obtain ⟨h1, h2, h4⟩ := h
        subst h4
        have := findUrl_length t2 u2 r2 h3
        simp only [List.length_cons]
        omega
    · rw [tryCloseLabel.eq_def] at h
      split at h
      · next u heq =>
        exfalso
        apply hc
        injection heq with hh h2
      · exact Option.noConfusion h

theorem scanLabel_length :
    ∀ accRev t l u r, scanLabel accRev t = some (l, u, r) → r.length ≤ t.length := by
  intro accRev0 t0
  induction accRev0, t0 using scanLabel.induct with
  | case1 accRev => intro l u r h; exact Option.noConfusion h
  | case2 accRev tl => intro l u r h; exact Option.noConfusion h
  | case3 tl hne ih =>
    intro l u r h
    have := ih l u r h
    simp only [List.length_cons]
    omega
  | case4 tl c tl2 res htc hne =>
    intro l u r h
    rw [scanLabel.eq_def] at h
    simp only [if_neg hne, if_pos rfl, htc, if_true, Option.some.injEq] at h
    subst h
    have := tryCloseLabel_length (c :: tl2) tl l u r htc
    simp only [List.length_cons]
    omega
  | case5 tl c tl2 htc hne ih =>
    intro l u r h
    rw [scanLabel.eq_def] at h
    simp only [if_neg hne, if_pos rfl, htc, if_true] at h
    have := ih l u r h
    simp only [List.length_cons]
    omega
  | case6 accRev c tl hne1 hne2 ih =>
    intro l u r h
    rw [scanLabel.eq_def] at h
    simp only [if_neg hne1, if_neg hne2] at h
    have := ih l u r h
    simp only [List.length_cons]
    omega

theorem findLink_length :
    ∀ s b l u a, findLink s = some (b, l, u, a) → a.length < s.length := by
  intro s0
  induction s0 using findLink.induct with
  | case1 => intro b l u a h; exact Option.noConfusion h
  | case2 tl label url rest hscan =>
    intro b l u a h
    rw [findLink.eq_def] at h
    simp only [if_pos rfl, hscan] at h
    have h4 : rest = a := congrArg (fun q => q.2.2.2) (Option.some.inj h)
    subst h4
    have := scanLabel_length [] tl _ _ _ hscan
    simp only [List.length_cons]
    omega
  | case3 tl hscan ih =>
    intro b l u a h
    rw [findLink.eq_def] at h
    simp only [if_pos rfl, hscan] at h
    match h4 : findLink tl with
    | none => rw [h4] at h; exact Option.noConfusion h
    | some (b2, l2, u2, a2) =>
      rw [h4] at h
      simp only [Option.map_some'] at h
      have h8 : a2 = a := congrArg (fun q => q.2.2.2) (Option.some.inj h)
      subst h8
      have := ih b2 l2 u2 a2 h4
      simp only [List.length_cons]
      omega
  | case4 c tl hc ih =>
    intro b l u a h
    rw [findLink.eq_def] at h
    simp only [if_neg hc] at h
    match h4 : findLink tl with
    | none => rw [h4] at h; exact Option.noConfusion h
    | some (b2, l2, u2, a2) =>
      rw [h4] at h
      simp only [Option.map_some'] at h
      have h8 : a2 = a := congrArg (fun q => q.2.2.2) (Option.some.inj h)
      subst h8
      have := ih b2 l2 u2 a2 h4
      simp only [List.length_cons]
      omega

/-- `parseLinkInText` (parser.ts lines 254-279): find the leftmost link
literal, tokenize its label with the embedded `parseTextBodyStyle` (a crash
there propagates), re-extract label and url from the literal with the
greedy regexps `/\[(.+)\]/` and `/\((.+)\)/` (with `?? ''` fallbacks), split
the input around the literal, recurse on the text after it, and drop falsy
(empty-string) elements. -/
def parseLinkInText (input : List Char) : Option (List LinkSegment) :=
  match hfl : findLink input with
  | none => some [.strSeg input]
  | some (before, label, url0, after) =>
    let link : List Char := '[' :: label ++ ']' :: '(' :: url0 ++ [')']
    match parseTextBodyStyle (jsOrEmpty (greedyGroup '[' ']' link)) none [] with
    | none => none
    | some body =>
      match parseLinkInText after with
      | none => none
      | some restSegs =>
        some (filterTruthy (.strSeg before ::
          .linkSeg ⟨body, jsOrEmpty (greedyGroup '(' ')' link)⟩ :: restSegs))
termination_by input.length
decreasing_by exact findLink_length input before label url0 after hfl

/-- The `.map`/`.flat` step of `parseTextBody` (parser.ts lines 97-107):
raw strings are tokenized by the embedded `parseTextBodyStyle` (crash
propagates) and flattened; link objects pass through unchanged. -/
def expandLinkSegments : List LinkSegment → Option (List Span)
  | [] => some []
  | .strSeg s :: rest =>
    match parseTextBodyStyle s none [] with
    | none => none
    | some runs =>
      match expandLinkSegments rest with
      | none => none
      | some tailSpans => some (runs.map Span.textSpan ++ tailSpans)
  | .linkSeg l :: rest =>
    match expandLinkSegments rest with
    | none => none
    | some tailSpans => some (Span.linkSpan l :: tailSpans)

/-- `parseTextBody` (parser.ts lines 95-108): link extraction followed by
style tokenization of the non-link segments. -/
def parseTextBody (input : List Char) : Option (List Span) :=
  match parseLinkInText input with
  | none => none
  | some segs => expandLinkSegments segs

/-- Specification-side reconstruction used by the round-trip claim:
concatenate the run values, re-inserting the marker characters at the
boundaries of each styled run (the code marker is the backtick, the strong
marker `**`, and the italic marker is normalized to `_`, matching
`unterminatedMark`). -/
def reconstructRuns (runs : List TextBody) : List Char :=
  runs.foldr (fun r acc =>
    (match r.style with
     | .plain => jsCoerce r.value
     | st => unterminatedMark st ++ jsCoerce r.value ++ unterminatedMark st) ++ acc) []

/-- The JavaScript whitespace class (`\s`, and the set trimmed by
`String.prototype.trim`): ASCII whitespace, NBSP, BOM and the Unicode
space separators. -/
def isJsSpace (c : Char) : Bool :=
  c = ' ' || c = '\t' || c = '\n' || c = '\r' ||
  c = Char.ofNat 11 || c = Char.ofNat 12 || c = Char.ofNat 160 ||
  c = Char.ofNat 5760 || (8192 ≤ c.toNat && c.toNat ≤ 8202) ||
  c = Char.ofNat 8232 || c = Char.ofNat 8233 || c = Char.ofNat 8239 ||
  c = Char.ofNat 8287 || c = Char.ofNat 12288 || c = Char.ofNat 65279

/-- JavaScript `String.prototype.trim`. -/
def jsTrim (s : List Char) : List Char :=
  ((s.dropWhile isJsSpace).reverse.dropWhile isJsSpace).reverse

/-- JavaScript `String.prototype.split(/\n+/)`. -/
def splitOnNewlines (s : List Char) : List (List Char) :=
  match hdp : s.drop (s.takeWhile (fun c => c ≠ '\n')).length with
  | [] => [s.takeWhile (fun c => c ≠ '\n')]
  | _ :: r2 =>
    s.takeWhile (fun c => c ≠ '\n') :: splitOnNewlines (r2.dropWhile (fun c => c = '\n'))
termination_by s.length
decreasing_by
  have h1 := congrArg List.length hdp
  simp only [List.length_drop, List.length_cons] at h1
  have h2 : (r2.dropWhile (fun c => c = '\n')).length ≤ r2.length :=
    (List.dropWhile_sublist _).length_le
  omega

/-- Hand-compiled `headingRegexp` `/^(#{1,6})\s(.+)/` (parser.ts line 81):
returns match[0].  Greedy `#{1,6}` with backtracking is equivalent to the
maximal run of 1-6 `#` followed by one whitespace character and a
non-empty rest of line. -/
def headingMatch (s : List Char) : Option (List Char) :=
  if 1 ≤ (s.takeWhile (fun c => c = '#')).length ∧ (s.takeWhile (fun c => c = '#')).length ≤ 6 then
    match s.drop (s.takeWhile (fun c => c = '#')).length with
    | c :: t2 =>
      if isJsSpace c then
        if t2.takeWhile (fun c2 => c2 ≠ '\n') = [] then none
        else some (s.takeWhile (fun c => c = '#') ++ c :: t2.takeWhile (fun c2 => c2 ≠ '\n'))
      else none
    | [] => none
  else none

/-- One iteration of `quoteRegexp` `/^(?:>\s.*\n?)+/` (parser.ts line 82):
`>`, one whitespace character, the rest of the line, and an optional
newline.  Returns (consumed text, rest). -/
def quoteLineMatch (s : List Char) : Option (List Char × List Char) :=
  match s with
  | '>' :: c :: t =>
    if isJsSpace c then
      match t.dropWhile (fun c2 => c2 ≠ '\n') with
      | '\n' :: r => some ('>' :: c :: (t.takeWhile (fun c2 => c2 ≠ '\n') ++ ['\n']), r)
      | _ => some ('>' :: c :: t.takeWhile (fun c2 => c2 ≠ '\n'),
          t.dropWhile (fun c2 => c2 ≠ '\n'))
    else none
  | _ => none

theorem quoteLineMatch_length :
    ∀ s line r, quoteLineMatch s = some (line, r) → r.length + 2 ≤ s.length := by
  intro s line r h
  match s with
  | [] => exact Option.noConfusion h
  | [c] => rw [quoteLineMatch.eq_def] at h; split at h <;> simp_all
  | c0 :: c :: t =>
    rw [quoteLineMatch.eq_def] at h
    split at h
    · next heq =>
      injection heq with hh1 hrest
      injection hrest with hh2 ht
      subst hh1 hh2 ht
      split at h
      · have hdw : (t.dropWhile (fun c2 => c2 ≠ '\n')).length ≤ t.length :=
          (List.dropWhile_sublist _).length_le
        split at h
        · next r2 heq2 =>
          have h2 : r2 = r := congrArg Prod.snd (Option.some.inj h)
          have h3 := congrArg List.length heq2
          simp only [List.length_cons] at h3
          subst h2
          simp only [List.length_cons]
          omega
        · have h2 : t.dropWhile (fun c2 => c2 ≠ '\n') = r :=
            congrArg Prod.snd (Option.some.inj h)
          simp only [List.length_cons, ← h2]
          omega
      · exact Option.noConfusion h
    · exact Option.noConfusion h

/-- Greedy `+` loop of `quoteRegexp`: one or more consecutive quote lines.
Returns (match[0], rest). -/
def quoteMatchLoop (s : List Char) : Option (List Char × List Char) :=
  match hql : quoteLineMatch s with
  | none => none
  | some (line, r) =>
    match quoteMatchLoop r with
    | none => some (line, r)
    | some (m2, r2) => some (line ++ m2, r2)
termination_by s.length
decreasing_by
  have := quoteLineMatch_length s line r hql
  omega

/-- `quoteRegexp` match[0]. -/
def quoteMatch (s : List Char) : Option (List Char) :=
  (quoteMatchLoop s).map Prod.fst

/-- The `(?:-|\d+\.)` marker alternative of `listRegexp` (parser.ts line
83): a dash, or a maximal non-empty digit run followed by a dot. -/
def listMarker (s : List Char) : Option (List Char × List Char) :=
  match s with
  | '-' :: t => some (['-'], t)
  | _ =>
    if s.takeWhile Char.isDigit = [] then none
    else
      match s.drop (s.takeWhile Char.isDigit).length with
      | '.' :: t2 => some (s.takeWhile Char.isDigit ++ ['.'], t2)
      | _ => none

theorem listMarker_length :
    ∀ s mk t, listMarker s = some (mk, t) → t.length + 1 ≤ s.length ∧ 0 < mk.length := by
  intro s mk t h
  rw [listMarker.eq_def] at h
  split at h
  · next c0 t0 =>
    have h1 : (['-'] : List Char) = mk := congrArg Prod.fst (Option.some.inj h)
    have h2 : t0 = t := congrArg Prod.snd (Option.some.inj h)
    subst h1 h2
    simp
  · split at h
    · exact Option.noConfusion h
    · next hne =>
      split at h
      · next t2 heq =>
        have h1 : t2 = t := congrArg Prod.snd (Option.some.inj h)
        have h2 : s.takeWhile Char.isDigit ++ ['.'] = mk :=
          congrArg Prod.fst (Option.some.inj h)
        subst h1
        have h3 := congrArg List.length heq
        simp only [List.length_drop, List.length_cons] at h3
        have h4 : 0 < (s.takeWhile Char.isDigit).length := List.length_pos.mpr hne
        have h5 : (s.takeWhile Char.isDigit).length ≤ s.length :=
          (List.takeWhile_sublist _).length_le
        constructor
        · omega
        · rw [← h2]; simp
      · exact Option.noConfusion h

/-- One iteration of `listRegexp` `/^(?:(?:-|\d+\.)\s(.+)\n?)+/`: marker,
one whitespace character, non-empty rest of line (the capture), optional
newline.  Returns (consumed text, captured content, rest). -/
def listLineMatch (s : List Char) : Option (List Char × List Char × List Char) :=
  match listMarker s with
  | none => none
  | some (mk, t) =>
    match t with
    | c :: t2 =>
      if isJsSpace c then
        if t2.takeWhile (fun c2 => c2 ≠ '\n') = [] then none
        else
          match t2.dropWhile (fun c2 => c2 ≠ '\n') with
          | '\n' :: r =>
            some (mk ++ c :: (t2.takeWhile (fun c2 => c2 ≠ '\n') ++ ['\n']),
              t2.takeWhile (fun c2 => c2 ≠ '\n'), r)
          | _ =>
            some (mk ++ c :: t2.takeWhile (fun c2 => c2 ≠ '\n'),
              t2.takeWhile (fun c2 => c2 ≠ '\n'), t2.dropWhile (fun c2 => c2 ≠ '\n'))
      else none
    | [] => none

theorem listLineMatch_length :
    ∀ s m0 content r, listLineMatch s = some (m0, content, r) →
      r.length + 2 ≤ s.length ∧ 0 < m0.length := by
  intro s m0 content r h
  rw [listLineMatch.eq_def] at h
  split at h
  · exact Option.noConfusion h
  · next mk t hmk =>
    have hmarker := listMarker_length s mk t hmk
    split at h
    · next c t2 =>
      split at h
      · split at h
        · exact Option.noConfusion h
        · have hdw : (t2.dropWhile (fun c2 => c2 ≠ '\n')).length ≤ t2.length :=
            (List.dropWhile_sublist _).length_le
          split at h
          · next r2 heq2 =>
            have h2 : r2 = r := congrArg (fun q => q.2.2) (Option.some.inj h)
            have hm : mk ++ c :: (t2.takeWhile (fun c2 => c2 ≠ '\n') ++ ['\n']) = m0 :=
              congrArg Prod.fst (Option.some.inj h)
            have h3 := congrArg List.length heq2
            simp only [List.length_cons] at h3
            subst h2
            constructor
            · simp only [List.length_cons] at *; omega
            · rw [← hm]; simp
          · have h2 : t2.dropWhile (fun c2 => c2 ≠ '\n') = r :=
              congrArg (fun q => q.2.2) (Option.some.inj h)
            have hm : mk ++ c :: t2.takeWhile (fun c2 => c2 ≠ '\n') = m0 :=
              congrArg Prod.fst (Option.some.inj h)
            constructor
            · rw [← h2]; simp only [List.length_cons] at *; omega
            · rw [← hm]; simp
      · exact Option.noConfusion h
    · exact Option.noConfusion h

/-- Greedy `+` loop of `listRegexp`. -/
def listMatchLoop (s : List Char) : Option (List Char × List Char) :=
  match hll : listLineMatch s with
  | none => none
  | some (line, content, r) =>
    match listMatchLoop r with
    | none => some (line, r)
    | some (m2, r2) => some (line ++ m2, r2)
termination_by s.length
decreasing_by
  have := listLineMatch_length s line content r hll
  omega

/-- `listRegexp` match[0]. -/
def listMatch (s : List Char) : Option (List Char) :=
  (listMatchLoop s).map Prod.fst


/-- Viability of an alt-text end position inside `imageRegexp`
`/^!\[(.*)\]\((.+?)\)(.*)/` (parser.ts line 84): position `j` in the first
line must carry `](`, and a url (lazy, non-empty, first `)`) must follow. -/
def imageViable (line : List Char) (j : Nat) : Bool :=
  decide (line.get? j = some ']') && decide (line.get? (j + 1) = some '(') &&
    (findUrl (line.drop (j + 2))).isSome

/-- The greedy `(.*)` alt group with backtracking: the largest viable
alt-text end position. -/
def imageSplit (line : List Char) : Option Nat :=
  ((List.range line.length).filter (imageViable line)).getLast?

/-- Hand-compiled `imageRegexp` match[0]: `![`, then everything to the end
of the line (the final greedy `(.*)` caption group extends the match to the
line end) provided a viable `](<url>)` split exists. -/
def imageMatch (s : List Char) : Option (List Char) :=
  match s with
  | '!' :: '[' :: t =>
    match imageSplit (t.takeWhile (fun c => c ≠ '\n')) with
    | some _ => some ('!' :: '[' :: t.takeWhile (fun c => c ≠ '\n'))
    | none => none
  | _ => none

/-- `\w` (ASCII word character). -/
def isWordChar (c : Char) : Bool := c.isAlpha || c.isDigit || c = '_'

/-- Lazy `([\s\S]*?)\n\x60\x60\x60`: the body runs to the first occurrence
of a newline followed by a closing triple-backtick fence.  Returns
(body, rest after the fence). -/
def findCloseFence : List Char → Option (List Char × List Char)
  | [] => none
  | c :: t =>
    if c = '\n' then
      match t with
      | c2 :: c3 :: c4 :: r =>
        if c2 = backquote ∧ c3 = backquote ∧ c4 = backquote then some ([], r)
        else (findCloseFence t).map (fun pr => (c :: pr.1, pr.2))
      | _ => (findCloseFence t).map (fun pr => (c :: pr.1, pr.2))
    else (findCloseFence t).map (fun pr => (c :: pr.1, pr.2))

/-- Hand-compiled `codeRegexp` `/^\x60\x60\x60(\w+)?\n([\s\S]*?)\n\x60\x60\x60/`
(parser.ts line 85) match[0]: opening fence, optional word-character
language tag, newline, lazy body, closing fence. -/
def codeMatch (s : List Char) : Option (List Char) :=
  match s with
  | a :: b :: c :: t =>
    if a = backquote ∧ b = backquote ∧ c = backquote then
      match t.drop (t.takeWhile isWordChar).length with
      | nl :: t2 =>
        if nl = '\n' then
          match findCloseFence t2 with
          | some (body, _) =>
            some (backquote :: backquote :: backquote :: t.takeWhile isWordChar ++
              '\n' :: body ++ '\n' :: backquote :: backquote :: backquote :: [])
          | none => none
        else none
      | [] => none
    else none
  | _ => none

/-- Hand-compiled `thematicBreakRegexp` `/^-{3,}/` (parser.ts line 86)
match[0]: the maximal leading dash run, if at least three. -/
def thematicBreakMatch (s : List Char) : Option (List Char) :=
  if 3 ≤ (s.takeWhile (fun c => c = '-')).length then
    some (s.takeWhile (fun c => c = '-'))
  else none

/-- Hand-compiled `paragraphRegexp` `/^([\s\S]+?)(?:\n|$)/` (parser.ts line
88) match[0]: at least one character up to and including the first newline
strictly after the start, or the whole text if none. -/
def paragraphMatch (s : List Char) : Option (List Char) :=
  match s with
  | [] => none
  | c :: t =>
    match t.dropWhile (fun c2 => c2 ≠ '\n') with
    | '\n' :: _ => some (c :: t.takeWhile (fun c2 => c2 ≠ '\n') ++ ['\n'])
    | _ => some (c :: t.takeWhile (fun c2 => c2 ≠ '\n'))

/-- Block nodes, from `definition.ts`. -/
inductive Block where
  | heading (level : Nat) (body : List Span)
  | paragraph (body : List Span)
  | quote (body : List Span)
  | list (ordered : Bool) (items : List (List Span))
  | image (url altText caption : List Char)
  | code (lang : Option (List Char)) (body : List Char)
  | thematicBreak
deriving DecidableEq

/-- The errors thrown by parser.ts: the `No matching block found` error of
`parseBlocks`, the `Invalid ... block` errors of the individual block
parsers, and the TypeError of the embedded tokenizer (`textBodyCrash`). -/
inductive ParseError where
  | unmatchedBlock (remaining : List Char)
  | invalidHeading
  | invalidQuote
  | invalidListItem
  | invalidImage
  | invalidCode
  | textBodyCrash
deriving DecidableEq

/-- `parseParagraphBlock` (parser.ts lines 90-93). -/
def parseParagraphBlock (input : List Char) : Except ParseError Block :=
  match parseTextBody input with
  | none => .error .textBodyCrash
  | some spans => .ok (.paragraph spans)

/-- `parseHeadingBlock` (parser.ts lines 297-309): re-run `headingRegexp`,
take the hash count as level and tokenize the rest of the line. -/
def parseHeadingBlock (input : List Char) : Except ParseError Block :=
  if 1 ≤ (input.takeWhile (fun c => c = '#')).length ∧
      (input.takeWhile (fun c => c = '#')).length ≤ 6 then
    match input.drop (input.takeWhile (fun c => c = '#')).length with
    | c :: t2 =>
      if isJsSpace c then
        if t2.takeWhile (fun c2 => c2 ≠ '\n') = [] then .error .invalidHeading
        else
          match parseTextBody (t2.takeWhile (fun c2 => c2 ≠ '\n')) with
          | none => .error .textBodyCrash
          | some spans => .ok (.heading (input.takeWhile (fun c => c = '#')).length spans)
      else .error .invalidHeading
    | [] => .error .invalidHeading
  else .error .invalidHeading

/-- The global replace `.replace(/\n>[ ]?/g, '\n')` of `parseQuoteBlock`
(parser.ts line 316): strip `>` and at most one space after each newline,
scanning left to right without rescanning replacements. -/
def replQuoteMarks : List Char → List Char
  | '\n' :: '>' :: ' ' :: t => '\n' :: replQuoteMarks t
  | '\n' :: '>' :: t => '\n' :: replQuoteMarks t
  | c :: t => c :: replQuoteMarks t
  | [] => []

/-- The head replace `.replace(/^>\s/, '')` of `parseQuoteBlock`. -/
def stripQuoteHead (s : List Char) : List Char :=
  match s with
  | '>' :: c :: t => if isJsSpace c then t else s
  | _ => s

/-- `parseQuoteBlock` (parser.ts lines 311-321): re-run `quoteRegexp`,
strip the quote markers and tokenize. -/
def parseQuoteBlock (input : List Char) : Except ParseError Block :=
  match quoteMatchLoop input with
  | none => .error .invalidQuote
  | some (m0, _) =>
    match parseTextBody (stripQuoteHead (replQuoteMarks m0)) with
    | none => .error .textBodyCrash
    | some spans => .ok (.quote spans)

/-- The `/^\d{1,}\./` test of `parseListBlock` (parser.ts line 326). -/
def startsNumbered (m0 : List Char) : Bool :=
  decide (m0.takeWhile Char.isDigit ≠ []) &&
    (match m0.drop (m0.takeWhile Char.isDigit).length with
     | '.' :: _ => true
     | _ => false)

/-- `parseListItem` (parser.ts lines 336-348): re-run `listRegexp` on the
line, tokenize the captured content. -/
def parseListItem (line : List Char) : Except ParseError (List Span) :=
  match listLineMatch line with
  | none => .error .invalidListItem
  | some (m0, content, r) =>
    match parseTextBody content with
    | none => .error .textBodyCrash
    | some spans => .ok spans

/-- The `lines.map(parseListItem)` of `parseListBlock`, with the first
thrown error propagating. -/
def parseListItems : List (List Char) → Except ParseError (List (List Span))
  | [] => .ok []
  | line :: rest =>
    match parseListItem line with
    | .error e => .error e
    | .ok item =>
      match parseListItems rest with
      | .error e => .error e
      | .ok items => .ok (item :: items)

/-- `parseListBlock` (parser.ts lines 323-334): split into lines, decide
`ordered` from every line matching the numeric marker form, parse items. -/
def parseListBlock (input : List Char) : Except ParseError Block :=
  match parseListItems ((splitOnNewlines input).filter (fun l => !(jsTrim l).isEmpty)) with
  | .error e => .error e
  | .ok items =>
    .ok (.list
      (((splitOnNewlines input).filter (fun l => !(jsTrim l).isEmpty)).all (fun line =>
        match listLineMatch line with
        | some (m0, _, _) => startsNumbered m0
        | none => false))
      items)

/-- The caption replace `.replace(/^\((.+)\)$/, '$1') || ''` of
`parseImageBlock` (parser.ts line 357): strip one pair of surrounding
parentheses when the whole string is parenthesized with non-empty,
newline-free content. -/
def stripParens (s : List Char) : List Char :=
  match s with
  | '(' :: t =>
    if 2 ≤ t.length ∧ t.getLast? = some ')' ∧ t.dropLast.all (fun c => c ≠ '\n') then
      t.dropLast
    else '(' :: t
  | _ => s

/-- `parseImageBlock` (parser.ts lines 350-365): re-run `imageRegexp` and
build the image block from alt text, url and caption. -/
def parseImageBlock (input : List Char) : Except ParseError Block :=
  match input with
  | '!' :: '[' :: t =>
    match imageSplit (t.takeWhile (fun c => c ≠ '\n')) with
    | some j =>
      match findUrl ((t.takeWhile (fun c => c ≠ '\n')).drop (j + 2)) with
      | some (url, caption) =>
        .ok (.image url ((t.takeWhile (fun c => c ≠ '\n')).take j) (stripParens caption))
      | none => .error .invalidImage
    | none => .error .invalidImage
  | _ => .error .invalidImage

/-- `parseCodeBlock` (parser.ts lines 367-380): re-run `codeRegexp`;
`lang` is the optional word-character tag (`undefined` when absent), the
body is verbatim. -/
def parseCodeBlock (input : List Char) : Except ParseError Block :=
  match input with
  | a :: b :: c :: t =>
    if a = backquote ∧ b = backquote ∧ c = backquote then
      match t.drop (t.takeWhile isWordChar).length with
      | nl :: t2 =>
        if nl = '\n' then
          match findCloseFence t2 with
          | some (body, _) =>
            .ok (.code
              (if t.takeWhile isWordChar = [] then none else some (t.takeWhile isWordChar))
              body)
          | none => .error .invalidCode
        else .error .invalidCode
      | [] => .error .invalidCode
    else .error .invalidCode
  | _ => .error .invalidCode

/-- `parseThematicBreakBlock` (parser.ts lines 382-384). -/
def parseThematicBreakBlock (input : List Char) : Except ParseError Block :=
  .ok .thematicBreak

/-- `regexpToParserPairs` (parser.ts lines 386-394): the ordered rule list
heading, quote, list, image, code, thematic break, paragraph. -/
def regexpToParserPairs :
    List ((List Char → Option (List Char)) × (List Char → Except ParseError Block)) :=
  [(headingMatch, parseHeadingBlock),
   (quoteMatch, parseQuoteBlock),
   (listMatch, parseListBlock),
   (imageMatch, parseImageBlock),
   (codeMatch, parseCodeBlock),
   (thematicBreakMatch, parseThematicBreakBlock),
   (paragraphMatch, parseParagraphBlock)]

/-- The `for..of` loop of `parseBlocks` (parser.ts lines 65-76): the first
rule whose pattern matches wins; returns match[0] and the rule body. -/
def firstRuleMatch :
    List ((List Char → Option (List Char)) × (List Char → Except ParseError Block)) →
    List Char → Option (List Char × (List Char → Except ParseError Block))
  | [], _ => none
  | (m, p) :: rest, s =>
    match m s with
    | some m0 => some (m0, p)
    | none => firstRuleMatch rest s


theorem jsTrim_length_le (s : List Char) : (jsTrim s).length ≤ s.length := by
  unfold jsTrim
  have h1 : (s.dropWhile isJsSpace).length ≤ s.length :=
    (List.dropWhile_sublist _).length_le
  have h2 : (((s.dropWhile isJsSpace).reverse.dropWhile isJsSpace)).length ≤
      (s.dropWhile isJsSpace).reverse.length :=
    (List.dropWhile_sublist _).length_le
  simp only [List.length_reverse] at *
  omega

theorem headingMatch_pos :
    ∀ s m0, headingMatch s = some m0 → 0 < m0.length := by
  intro s m0 h
  rw [headingMatch.eq_def] at h
  split at h
  · split at h
    · split at h
      · split at h
        · exact Option.noConfusion h
        · have h1 := congrArg List.length (Option.some.inj h)
          simp only [List.length_append, List.length_cons] at h1
          omega
      · exact Option.noConfusion h
    · exact Option.noConfusion h
  · exact Option.noConfusion h

theorem quoteMatchLoop_pos :
    ∀ s m0 r, quoteMatchLoop s = some (m0, r) → 0 < m0.length := by
  intro s m0 r h
  rw [quoteMatchLoop.eq_def] at h
  split at h
  · exact Option.noConfusion h
  · next line r2 hql =>
    have hlen := quoteLineMatch_length s line r2 hql
    have hline : 0 < line.length := by
      rw [quoteLineMatch.eq_def] at hql
      split at hql
      · split at hql
        · split at hql
          · have h1 := congrArg (fun q : _ × _ => q.1.length) (Option.some.inj hql)
            simp only [List.length_cons] at h1
            omega
          · have h1 := congrArg (fun q : _ × _ => q.1.length) (Option.some.inj hql)
            simp only [List.length_cons] at h1
            omega
        · exact Option.noConfusion hql
      · exact Option.noConfusion hql
    split at h
    · have h1 := congrArg (fun q : _ × _ => q.1.length) (Option.some.inj h)
      simp only at h1
      omega
    · have h1 := congrArg (fun q : _ × _ => q.1.length) (Option.some.inj h)
      simp only [List.length_append] at h1
      omega

theorem quoteMatch_pos :
    ∀ s m0, quoteMatch s = some m0 → 0 < m0.length := by
  intro s m0 h
  unfold quoteMatch at h
  match h2 : quoteMatchLoop s with
  | none => rw [h2] at h; exact Option.noConfusion h
  | some (m1, r1) =>
    rw [h2] at h
    simp only [Option.map_some'] at h
    have h3 : m1 = m0 := Option.some.inj h
    subst h3
    exact quoteMatchLoop_pos s m1 r1 h2

theorem listMatchLoop_pos :
    ∀ s m0 r, listMatchLoop s = some (m0, r) → 0 < m0.length := by
  intro s m0 r h
  rw [listMatchLoop.eq_def] at h
  split at h
  · exact Option.noConfusion h
  · next line content r2 hll =>
    have hlen := listLineMatch_length s line content r2 hll
    split at h
    · have h1 := congrArg (fun q : _ × _ => q.1.length) (Option.some.inj h)
      simp only at h1
      omega
    · have h1 := congrArg (fun q : _ × _ => q.1.length) (Option.some.inj h)
      simp only [List.length_append] at h1
      omega

theorem listMatch_pos :
    ∀ s m0, listMatch s = some m0 → 0 < m0.length := by
  intro s m0 h
  unfold listMatch at h
  match h2 : listMatchLoop s with
  | none => rw [h2] at h; exact Option.noConfusion h
  | some (m1, r1) =>
    rw [h2] at h
    simp only [Option.map_some'] at h
    have h3 : m1 = m0 := Option.some.inj h
    subst h3
    exact listMatchLoop_pos s m1 r1 h2

theorem imageMatch_pos :
    ∀ s m0, imageMatch s = some m0 → 0 < m0.length := by
  intro s m0 h
  rw [imageMatch.eq_def] at h
  split at h
  · split at h
    · have h1 := congrArg List.length (Option.some.inj h)
      simp only [List.length_cons] at h1
      omega
    · exact Option.noConfusion h
  · exact Option.noConfusion h

theorem codeMatch_pos :
    ∀ s m0, codeMatch s = some m0 → 0 < m0.length := by
  intro s m0 h
  rw [codeMatch.eq_def] at h
  split at h
  · split at h
    · split at h
      · split at h
        · split at h
          · have h1 := congrArg List.length (Option.some.inj h)
            simp only [List.length_cons, List.length_append] at h1
            omega
          · exact Option.noConfusion h
        · exact Option.noConfusion h
      · exact Option.noConfusion h
    · exact Option.noConfusion h
  · exact Option.noConfusion h

theorem thematicBreakMatch_pos :
    ∀ s m0, thematicBreakMatch s = some m0 → 0 < m0.length := by
  intro s m0 h
  unfold thematicBreakMatch at h
  split at h
  · next h3 =>
    have h1 : s.takeWhile (fun c => c = '-') = m0 := Option.some.inj h
    subst h1
    omega
  · exact Option.noConfusion h

theorem paragraphMatch_pos :
    ∀ s m0, paragraphMatch s = some m0 → 0 < m0.length := by
  intro s m0 h
  rw [paragraphMatch.eq_def] at h
  split at h
  · exact Option.noConfusion h
  · split at h
    · have h1 := congrArg List.length (Option.some.inj h)
      simp only [List.length_cons, List.length_append] at h1
      omega
    · have h1 := congrArg List.length (Option.some.inj h)
      simp only [List.length_cons] at h1
      omega

theorem firstRuleMatch_pos_of :
    ∀ pairs s m0 p,
      (∀ q ∈ pairs, ∀ t m, q.1 t = some m → 0 < m.length) →
      firstRuleMatch pairs s = some (m0, p) → 0 < m0.length := by
  intro pairs
  induction pairs with
  | nil => intro s m0 p hall h; exact Option.noConfusion h
  | cons q rest ih =>
    intro s m0 p hall h
    match q with
    | (m, pb) =>
      rw [firstRuleMatch] at h
      match h2 : m s with
      | some m1 =>
        rw [h2] at h
        have h3 : m1 = m0 := congrArg Prod.fst (Option.some.inj h)
        subst h3
        exact hall (m, pb) (List.mem_cons_self _ _) s m1 h2
      | none =>
        rw [h2] at h
        exact ih s m0 p (fun q2 hq2 => hall q2 (List.mem_cons_of_mem _ hq2)) h

theorem firstRuleMatch_pos :
    ∀ s m0 p, firstRuleMatch regexpToParserPairs s = some (m0, p) → 0 < m0.length := by
  intro s m0 p h
  refine firstRuleMatch_pos_of regexpToParserPairs s m0 p ?_ h
  intro q hq t m hm
  simp only [regexpToParserPairs, List.mem_cons, List.not_mem_nil, or_false] at hq
  rcases hq with h1 | h1 | h1 | h1 | h1 | h1 | h1 <;> subst h1
  · exact headingMatch_pos t m hm
  · exact quoteMatch_pos t m hm
  · exact listMatch_pos t m hm
  · exact imageMatch_pos t m hm
  · exact codeMatch_pos t m hm
  · exact thematicBreakMatch_pos t m hm
  · exact paragraphMatch_pos t m hm

/-- `parseBlocks` (parser.ts lines 60-79): empty (after trim) input ends
the recursion; otherwise the first matching rule builds a block from the
trimmed match and the remainder is parsed recursively after trimming;
if no rule matches, the `No matching block found` error is thrown. -/
def parseBlocks (input : List Char) : Except ParseError (List Block) :=
  if h0 : jsTrim input = [] then .ok []
  else
    match hfm : firstRuleMatch regexpToParserPairs input with
    | none => .error (.unmatchedBlock input)
    | some (m0, p) =>
      match p (jsTrim m0) with
      | .error e => .error e
      | .ok b =>
        match parseBlocks (jsTrim (input.drop m0.length)) with
        | .error e => .error e
        | .ok rest => .ok (b :: rest)
termination_by input.length
decreasing_by
  have hpos := firstRuleMatch_pos input m0 p hfm
  have hne : input ≠ [] := by
    intro he
    subst he
    exact h0 rfl
  have h1 : (jsTrim (input.drop m0.length)).length ≤ (input.drop m0.length).length :=
    jsTrim_length_le _
  have h2 : (input.drop m0.length).length = input.length - m0.length :=
    List.length_drop _ _
  have h3 : 0 < input.length := List.length_pos.mpr hne
  omega


/-- Lazy `[\s\S]*?---` search of the `split` regexp: the text before the
first occurrence of `---`, and the rest after it. -/
def findTripleDash : List Char → Option (List Char × List Char)
  | a :: b :: c :: t =>
    if a = '-' ∧ b = '-' ∧ c = '-' then some ([], t)
    else (findTripleDash (b :: c :: t)).map (fun pr => (a :: pr.1, pr.2))
  | _ => none

/-- The head part of `split` (parser.ts lines 22-32): capture group 1 of
`/^(---\n[\s\S]*?---)\n*/` on the trimmed input, or the empty string. -/
def frontmatterHead (s : List Char) : List Char :=
  match s with
  | '-' :: '-' :: '-' :: '\n' :: t =>
    match findTripleDash t with
    | some (mid, _) => '-' :: '-' :: '-' :: '\n' :: (mid ++ ['-', '-', '-'])
    | none => []
  | _ => []

/-- `split` (parser.ts lines 22-32): trim the input, take the frontmatter
head at the very start, and trim the rest as the body.
Returns (head, body). -/
def split (input : List Char) : List Char × List Char :=
  (frontmatterHead (jsTrim input),
   jsTrim ((jsTrim input).drop (frontmatterHead (jsTrim input)).length))

/-- Largest index `j ≥ 1` at which `---` occurs in `u` (the greedy
`([\s\S]+)` content group runs to the last `---`). -/
def lastTripleIdx (u : List Char) : Option Nat :=
  ((List.range u.length).filter
    (fun j => decide (1 ≤ j) && decide ((u.drop j).take 3 = ['-', '-', '-']))).getLast?

/-- Backtracking over the greedy `\n+` of `/---\n+([\s\S]+)---/`: try the
longest newline run first, then shorter ones. -/
def fmTryNewlines : Nat → List Char → Option (List Char)
  | 0, _ => none
  | n + 1, t =>
    if (t.take (n + 1)).all (fun c => c = '\n') ∧ n + 1 ≤ t.length then
      match lastTripleIdx (t.drop (n + 1)) with
      | some j => some ((t.drop (n + 1)).take j)
      | none => fmTryNewlines n t
    else fmTryNewlines n t

/-- Leftmost match of the unanchored `/---\n+([\s\S]+)---/` of
`parseFrontmatter` (parser.ts line 35): capture group 1, or `none`. -/
def fmContent : List Char → Option (List Char)
  | [] => none
  | c :: t =>
    if (c :: t).take 3 = ['-', '-', '-'] then
      match fmTryNewlines (((c :: t).drop 3).takeWhile (fun x => x = '\n')).length
          ((c :: t).drop 3) with
      | some content => some content
      | none => fmContent t
    else fmContent t

/-- The key search of `/^(.+?):\s(.+)/` (parser.ts line 43) after the first
key character: find the leftmost `:` followed by a whitespace character and
a non-empty rest of line; a failed candidate `:` becomes a key character. -/
def kvSeek (keyRev : List Char) : List Char → Option (List Char × List Char)
  | [] => none
  | c :: t =>
    if c = '\n' then none
    else if c = ':' then
      match t with
      | c2 :: t2 =>
        if isJsSpace c2 then
          if t2.takeWhile (fun x => x ≠ '\n') = [] then kvSeek (c :: keyRev) t
          else some (keyRev.reverse, t2.takeWhile (fun x => x ≠ '\n'))
        else kvSeek (c :: keyRev) t
      | [] => none
    else kvSeek (c :: keyRev) t

/-- `/^(.+?):\s(.+)/` on one line: (key, value) captures. -/
def lineKV (line : List Char) : Option (List Char × List Char) :=
  match line with
  | [] => none
  | c :: t => if c = '\n' then none else kvSeek [c] t

/-- `isQuoteChar`: a single or double quote. -/
def isQuoteChar (c : Char) : Bool := c = singleQuote || c = doubleQuote

/-- The value replace `.replace(/^["']?(.+?)["']?$/, '$1')` (parser.ts line
52): strip one optional leading and one optional trailing quote character,
keeping the lazy group non-empty. -/
def stripQuotePair (s : List Char) : List Char :=
  match (match s with
    | c :: t => if isQuoteChar c ∧ t ≠ [] then t else s
    | [] => s) with
  | s1 =>
    match s1.getLast? with
    | some lc => if isQuoteChar lc ∧ 2 ≤ s1.length then s1.dropLast else s1
    | none => s1

/-- `map.set` on the insertion-ordered map (parser.ts line 54): overwrite
in place or append. -/
def upsert (m : List (List Char × List Char)) (k v : List Char) :
    List (List Char × List Char) :=
  if m.any (fun kv => decide (kv.1 = k)) then
    m.map (fun kv => if kv.1 = k then (k, v) else kv)
  else m ++ [(k, v)]

/-- The per-line loop of `parseFrontmatter` (parser.ts lines 42-55). -/
def parseFrontmatterLines :
    List (List Char) → List (List Char × List Char) → List (List Char × List Char)
  | [], acc => acc
  | line :: rest, acc =>
    match lineKV line with
    | none => parseFrontmatterLines rest acc
    | some (k, v) =>
      parseFrontmatterLines rest (upsert acc (jsTrim k) (stripQuotePair (jsTrim v)))

/-- `parseFrontmatter` (parser.ts lines 34-58). -/
def parseFrontmatter (input : List Char) : List (List Char × List Char) :=
  match fmContent input with
  | none => []
  | some content =>
    parseFrontmatterLines
      ((splitOnNewlines content).filter (fun l => !(jsTrim l).isEmpty)) []

/-- The result of `parse` (parser.ts lines 15-20). -/
structure ParsedDocument where
  frontmatter : List (List Char × List Char)
  blocks : List Block
deriving DecidableEq

/-- `parse` (parser.ts lines 15-20): split, parse the frontmatter head,
parse the body blocks. -/
def parse (input : List Char) : Except ParseError ParsedDocument :=
  match parseBlocks (split input).2 with
  | .error e => .error e
  | .ok blocks => .ok ⟨parseFrontmatter (split input).1, blocks⟩


theorem scratch_tb_1 :
    parseTextBody (['>', 'x']) = some [.textSpan ⟨.plain, some (['>', 'x'])⟩] := by
  simp [parseTextBody, parseLinkInText, findLink, scanLabel, tryCloseLabel, findUrl,
    lazyCloseParen, expandLinkSegments, parseTextBodyStyle, checkHeadStyle, backquote,
    jsOrEmpty, jsAppendChar, filterTruthy]


theorem scratch_trim_1 : jsTrim ['>', 'x'] = ['>', 'x'] := rfl

theorem scratch_head_1 : headingMatch ['>', 'x'] = none := rfl

theorem scratch_quote_1 : quoteMatchLoop ['>', 'x'] = none := by
  rw [quoteMatchLoop]
  exact rfl

theorem scratch_list_1 : listMatchLoop ['>', 'x'] = none := by
  rw [listMatchLoop]
  exact rfl

theorem scratch_img_1 : imageMatch ['>', 'x'] = none := rfl

theorem scratch_code_1 : codeMatch ['>', 'x'] = none := rfl

theorem scratch_thm_1 : thematicBreakMatch ['>', 'x'] = none := rfl

theorem scratch_par_1 : paragraphMatch ['>', 'x'] = some ['>', 'x'] := rfl

theorem firstRuleMatch_cons_none (m : List Char → Option (List Char))
    (p : List Char → Except ParseError Block) (rest) (s : List Char)
    (h : m s = none) :
    firstRuleMatch ((m, p) :: rest) s = firstRuleMatch rest s := by
  rw [firstRuleMatch, h]

theorem firstRuleMatch_cons_some (m : List Char → Option (List Char))
    (p : List Char → Except ParseError Block) (rest) (s m0 : List Char)
    (h : m s = some m0) :
    firstRuleMatch ((m, p) :: rest) s = some (m0, p) := by
  rw [firstRuleMatch, h]

theorem parseBlocks_step (input m0 : List Char)
    (p : List Char → Except ParseError Block)
    (h0 : ¬jsTrim input = [])
    (hfm : firstRuleMatch regexpToParserPairs input = some (m0, p)) :
    parseBlocks input =
      (match p (jsTrim m0) with
       | .error e => .error e
       | .ok b =>
         match parseBlocks (jsTrim (input.drop m0.length)) with
         | .error e => .error e
         | .ok rest => .ok (b :: rest)) := by
  rw [parseBlocks, dif_neg h0]
  split
  · next hfm2 => rw [hfm] at hfm2; exact Option.noConfusion hfm2
  · next m1 p1 hfm2 =>
    rw [hfm] at hfm2
    have h1 : m0 = m1 := congrArg Prod.fst (Option.some.inj hfm2)
    have h2 : p = p1 := congrArg Prod.snd (Option.some.inj hfm2)
    subst h1 h2
    rfl

theorem scratch_quotem_1 : quoteMatch ['>', 'x'] = none := by
  unfold quoteMatch
  rw [scratch_quote_1]
  rfl

theorem scratch_listm_1 : listMatch ['>', 'x'] = none := by
  unfold listMatch
  rw [scratch_list_1]
  rfl

theorem scratch_frm_1 :
    firstRuleMatch regexpToParserPairs ['>', 'x'] =
      some (['>', 'x'], parseParagraphBlock) := by
  rw [regexpToParserPairs,
    firstRuleMatch_cons_none _ _ _ _ scratch_head_1,
    firstRuleMatch_cons_none _ _ _ _ scratch_quotem_1,
    firstRuleMatch_cons_none _ _ _ _ scratch_listm_1,
    firstRuleMatch_cons_none _ _ _ _ scratch_img_1,
    firstRuleMatch_cons_none _ _ _ _ scratch_code_1,
    firstRuleMatch_cons_none _ _ _ _ scratch_thm_1,
    firstRuleMatch_cons_some _ _ _ _ _ scratch_par_1]

theorem scratch_parablock_1 :
    parseParagraphBlock ['>', 'x'] = .ok (.paragraph [.textSpan ⟨.plain, some ['>', 'x']⟩]) := by
  simp [parseParagraphBlock, scratch_tb_1]

theorem parseBlocks_nil : parseBlocks [] = .ok [] := by
  rw [parseBlocks]
  exact rfl

/-- Counterexample to claim C7: a line beginning with a quote marker
immediately followed by a non-space character is not matched by the quote
rule — quoteRegexp requires a whitespace character after the marker — so
parseBlocks ">x" yields a Paragraph block, not a Quote block. -/
theorem quote_marker_without_space_is_paragraph :
    parseBlocks ((">x").toList) =
      .ok [.paragraph [.textSpan ⟨.plain, some ((">x").toList)⟩]] := by
  have hs : (">x").toList = ['>', 'x'] := rfl
  rw [hs]
  rw [parseBlocks_step ['>', 'x'] ['>', 'x'] parseParagraphBlock (by decide) scratch_frm_1]
  rw [scratch_trim_1, scratch_parablock_1]
  rw [show jsTrim (List.drop (['>', 'x'] : List Char).length ['>', 'x']) = [] from rfl]
  rw [parseBlocks_nil]

theorem quoteMatchLoop_step (s line r : List Char)
    (h : quoteLineMatch s = some (line, r)) :
    quoteMatchLoop s =
      (match quoteMatchLoop r with
       | none => some (line, r)
       | some (m2, r2) => some (line ++ m2, r2)) := by
  rw [quoteMatchLoop]
  split
  · next h2 => rw [h] at h2; exact Option.noConfusion h2
  · next line2 r2 h2 =>
    rw [h] at h2
    have h3 : line = line2 := congrArg Prod.fst (Option.some.inj h2)
    have h4 : r = r2 := congrArg Prod.snd (Option.some.inj h2)
    subst h3 h4
    rfl

theorem listMatchLoop_step (s line content r : List Char)
    (h : listLineMatch s = some (line, content, r)) :
    listMatchLoop s =
      (match listMatchLoop r with
       | none => some (line, r)
       | some (m2, r2) => some (line ++ m2, r2)) := by
  rw [listMatchLoop]
  split
  · next h2 => rw [h] at h2; exact Option.noConfusion h2
  · next line2 content2 r2 h2 =>
    rw [h] at h2
    have h3 : line = line2 := congrArg Prod.fst (Option.some.inj h2)
    have h4 : r = r2 := congrArg (fun q => q.2.2) (Option.some.inj h2)
    subst h3 h4
    rfl

theorem e_tb_T : parseTextBody ['T'] = some [.textSpan ⟨.plain, some ['T']⟩] := by
  simp [parseTextBody, parseLinkInText, findLink, scanLabel, tryCloseLabel,
    expandLinkSegments, parseTextBodyStyle, checkHeadStyle, backquote, jsOrEmpty,
    jsAppendChar, filterTruthy]

theorem e_tb_Q : parseTextBody ['Q'] = some [.textSpan ⟨.plain, some ['Q']⟩] := by
  simp [parseTextBody, parseLinkInText, findLink, scanLabel, tryCloseLabel,
    expandLinkSegments, parseTextBodyStyle, checkHeadStyle, backquote, jsOrEmpty,
    jsAppendChar, filterTruthy]

theorem e_tb_P : parseTextBody ['P'] = some [.textSpan ⟨.plain, some ['P']⟩] := by
  simp [parseTextBody, parseLinkInText, findLink, scanLabel, tryCloseLabel,
    expandLinkSegments, parseTextBodyStyle, checkHeadStyle, backquote, jsOrEmpty,
    jsAppendChar, filterTruthy]

-- parseBlocks ['P'] = one paragraph
theorem e_qloop_P : quoteMatchLoop ['P'] = none := by
  rw [quoteMatchLoop]; exact rfl

theorem e_lloop_P : listMatchLoop ['P'] = none := by
  rw [listMatchLoop]; exact rfl

theorem e_frm_P :
    firstRuleMatch regexpToParserPairs ['P'] = some (['P'], parseParagraphBlock) := by
  rw [regexpToParserPairs,
    firstRuleMatch_cons_none _ _ _ _ (show headingMatch ['P'] = none from rfl),
    firstRuleMatch_cons_none _ _ _ _
      (show quoteMatch ['P'] = none from by unfold quoteMatch; rw [e_qloop_P]; rfl),
    firstRuleMatch_cons_none _ _ _ _
      (show listMatch ['P'] = none from by unfold listMatch; rw [e_lloop_P]; rfl),
    firstRuleMatch_cons_none _ _ _ _ (show imageMatch ['P'] = none from rfl),
    firstRuleMatch_cons_none _ _ _ _ (show codeMatch ['P'] = none from rfl),
    firstRuleMatch_cons_none _ _ _ _ (show thematicBreakMatch ['P'] = none from rfl),
    firstRuleMatch_cons_some _ _ _ _ _ (show paragraphMatch ['P'] = some ['P'] from rfl)]

theorem e_pp_P :
    parseParagraphBlock ['P'] = .ok (.paragraph [.textSpan ⟨.plain, some ['P']⟩]) := by
  unfold parseParagraphBlock
  rw [e_tb_P]

theorem e_pb_P :
    parseBlocks ['P'] = .ok [.paragraph [.textSpan ⟨.plain, some ['P']⟩]] := by
  rw [parseBlocks_step ['P'] ['P'] parseParagraphBlock (by decide) e_frm_P]
  rw [show jsTrim ['P'] = ['P'] from rfl, e_pp_P]
  rw [show jsTrim (List.drop (['P'] : List Char).length ['P']) = [] from rfl]
  rw [parseBlocks_nil]

-- parseBlocks "> Q\nP" : quote then paragraph
theorem parseQuoteBlock_step (input m0 r : List Char)
    (h : quoteMatchLoop input = some (m0, r)) :
    parseQuoteBlock input =
      (match parseTextBody (stripQuoteHead (replQuoteMarks m0)) with
       | none => .error .textBodyCrash
       | some spans => .ok (.quote spans)) := by
  unfold parseQuoteBlock
  rw [h]

theorem e_qloop_I2 :
    quoteMatchLoop ['>', ' ', 'Q', '\n', 'P'] = some (['>', ' ', 'Q', '\n'], ['P']) := by
  rw [quoteMatchLoop_step ['>', ' ', 'Q', '\n', 'P'] ['>', ' ', 'Q', '\n'] ['P'] rfl,
    e_qloop_P]

theorem e_qloop_I2t :
    quoteMatchLoop ['>', ' ', 'Q'] = some (['>', ' ', 'Q'], []) := by
  rw [quoteMatchLoop_step ['>', ' ', 'Q'] ['>', ' ', 'Q'] [] rfl]
  rw [show quoteMatchLoop [] = none from by rw [quoteMatchLoop]; exact rfl]

theorem e_pq_I2 :
    parseQuoteBlock ['>', ' ', 'Q'] = .ok (.quote [.textSpan ⟨.plain, some ['Q']⟩]) := by
  rw [parseQuoteBlock_step _ _ _ e_qloop_I2t]
  rw [show stripQuoteHead (replQuoteMarks ['>', ' ', 'Q']) = ['Q'] from rfl]
  rw [e_tb_Q]

theorem e_frm_I2 :
    firstRuleMatch regexpToParserPairs ['>', ' ', 'Q', '\n', 'P'] =
      some (['>', ' ', 'Q', '\n'], parseQuoteBlock) := by
  rw [regexpToParserPairs,
    firstRuleMatch_cons_none _ _ _ _
      (show headingMatch ['>', ' ', 'Q', '\n', 'P'] = none from rfl),
    firstRuleMatch_cons_some _ _ _ _ _
      (show quoteMatch ['>', ' ', 'Q', '\n', 'P'] = some ['>', ' ', 'Q', '\n'] from by
        unfold quoteMatch; rw [e_qloop_I2]; rfl)]

theorem e_pb_I2 :
    parseBlocks ['>', ' ', 'Q', '\n', 'P'] =
      .ok [.quote [.textSpan ⟨.plain, some ['Q']⟩],
        .paragraph [.textSpan ⟨.plain, some ['P']⟩]] := by
  rw [parseBlocks_step _ ['>', ' ', 'Q', '\n'] parseQuoteBlock (by decide) e_frm_I2]
  rw [show jsTrim ['>', ' ', 'Q', '\n'] = ['>', ' ', 'Q'] from rfl, e_pq_I2]
  rw [show jsTrim (List.drop (['>', ' ', 'Q', '\n'] : List Char).length
    ['>', ' ', 'Q', '\n', 'P']) = ['P'] from rfl]
  rw [e_pb_P]

-- parseBlocks "# T\n> Q\nP"
theorem e_ph_I1 :
    parseHeadingBlock ['#', ' ', 'T'] =
      .ok (.heading 1 [.textSpan ⟨.plain, some ['T']⟩]) := by
  simp [parseHeadingBlock, e_tb_T, isJsSpace]

theorem e_frm_I1 :
    firstRuleMatch regexpToParserPairs ['#', ' ', 'T', '\n', '>', ' ', 'Q', '\n', 'P'] =
      some (['#', ' ', 'T'], parseHeadingBlock) := by
  rw [regexpToParserPairs,
    firstRuleMatch_cons_some _ _ _ _ _
      (show headingMatch ['#', ' ', 'T', '\n', '>', ' ', 'Q', '\n', 'P'] =
        some ['#', ' ', 'T'] from rfl)]

theorem e_pb_I1 :
    parseBlocks ['#', ' ', 'T', '\n', '>', ' ', 'Q', '\n', 'P'] =
      .ok [.heading 1 [.textSpan ⟨.plain, some ['T']⟩],
        .quote [.textSpan ⟨.plain, some ['Q']⟩],
        .paragraph [.textSpan ⟨.plain, some ['P']⟩]] := by
  rw [parseBlocks_step _ ['#', ' ', 'T'] parseHeadingBlock (by decide) e_frm_I1]
  rw [show jsTrim ['#', ' ', 'T'] = ['#', ' ', 'T'] from rfl, e_ph_I1]
  rw [show jsTrim (List.drop (['#', ' ', 'T'] : List Char).length
    ['#', ' ', 'T', '\n', '>', ' ', 'Q', '\n', 'P']) = ['>', ' ', 'Q', '\n', 'P'] from rfl]
  rw [e_pb_I2]

/-- Claim C2: `parseBlocks` tries the rules in the fixed order heading,
quote, list, image, code, thematic break, paragraph (the order of
`regexpToParserPairs` in the embedding), first match winning; in
particular `parse` on "# T\n> Q\nP" yields exactly a level-1 heading, a
quote and a paragraph, in that order. -/
theorem parse_heading_quote_paragraph_example :
    parse (("# T\n> Q\nP").toList) =
      .ok ⟨[], [.heading 1 [.textSpan ⟨.plain, some (("T").toList)⟩],
        .quote [.textSpan ⟨.plain, some (("Q").toList)⟩],
        .paragraph [.textSpan ⟨.plain, some (("P").toList)⟩]]⟩ := by
  have hs : ("# T\n> Q\nP").toList = ['#', ' ', 'T', '\n', '>', ' ', 'Q', '\n', 'P'] := rfl
  rw [hs]
  unfold parse
  rw [show (split ['#', ' ', 'T', '\n', '>', ' ', 'Q', '\n', 'P']).2 =
    ['#', ' ', 'T', '\n', '>', ' ', 'Q', '\n', 'P'] from rfl]
  rw [e_pb_I1]
  exact rfl

theorem firstRuleMatch_nil_input : firstRuleMatch regexpToParserPairs [] = none := by
  rw [regexpToParserPairs,
    firstRuleMatch_cons_none _ _ _ _ (show headingMatch [] = none from rfl),
    firstRuleMatch_cons_none _ _ _ _ (show quoteMatch [] = none from by
      unfold quoteMatch; rw [show quoteMatchLoop [] = none from by
        rw [quoteMatchLoop]; exact rfl]; rfl),
    firstRuleMatch_cons_none _ _ _ _ (show listMatch [] = none from by
      unfold listMatch; rw [show listMatchLoop [] = none from by
        rw [listMatchLoop]; exact rfl]; rfl),
    firstRuleMatch_cons_none _ _ _ _ (show imageMatch [] = none from rfl),
    firstRuleMatch_cons_none _ _ _ _ (show codeMatch [] = none from rfl),
    firstRuleMatch_cons_none _ _ _ _ (show thematicBreakMatch [] = none from rfl),
    firstRuleMatch_cons_none _ _ _ _ (show paragraphMatch [] = none from rfl)]
  rfl

/-- Claim C10: whenever a rule of `parseBlocks` matches, the matched
prefix is non-empty and the trimmed remainder passed to the recursive call
is strictly shorter than the current input, so the recursion terminates. -/
theorem block_rule_match_consumes (s m0 : List Char)
    (p : List Char → Except ParseError Block)
    (h : firstRuleMatch regexpToParserPairs s = some (m0, p)) :
    0 < m0.length ∧ (jsTrim (s.drop m0.length)).length < s.length := by
  have hpos := firstRuleMatch_pos s m0 p h
  have hne : s ≠ [] := by
    intro he
    subst he
    rw [firstRuleMatch_nil_input] at h
    exact Option.noConfusion h
  have h1 : (jsTrim (s.drop m0.length)).length ≤ (s.drop m0.length).length :=
    jsTrim_length_le _
  have h2 : (s.drop m0.length).length = s.length - m0.length := List.length_drop _ _
  have h3 : 0 < s.length := List.length_pos.mpr hne
  exact ⟨hpos, by omega⟩

theorem e_frm_abc :
    firstRuleMatch regexpToParserPairs ['a', 'b', 'c'] =
      some (['a', 'b', 'c'], parseParagraphBlock) := by
  rw [regexpToParserPairs,
    firstRuleMatch_cons_none _ _ _ _ (show headingMatch ['a', 'b', 'c'] = none from rfl),
    firstRuleMatch_cons_none _ _ _ _ (show quoteMatch ['a', 'b', 'c'] = none from by
      unfold quoteMatch; rw [show quoteMatchLoop ['a', 'b', 'c'] = none from by
        rw [quoteMatchLoop]; exact rfl]; rfl),
    firstRuleMatch_cons_none _ _ _ _ (show listMatch ['a', 'b', 'c'] = none from by
      unfold listMatch; rw [show listMatchLoop ['a', 'b', 'c'] = none from by
        rw [listMatchLoop]; exact rfl]; rfl),
    firstRuleMatch_cons_none _ _ _ _ (show imageMatch ['a', 'b', 'c'] = none from rfl),
    firstRuleMatch_cons_none _ _ _ _ (show codeMatch ['a', 'b', 'c'] = none from rfl),
    firstRuleMatch_cons_none _ _ _ _ (show thematicBreakMatch ['a', 'b', 'c'] = none from rfl),
    firstRuleMatch_cons_some _ _ _ _ _
      (show paragraphMatch ['a', 'b', 'c'] = some ['a', 'b', 'c'] from rfl)]

/-- Witness for C10 at the concrete input "abc". -/
theorem block_rule_match_consumes_witness :
    0 < (['a', 'b', 'c'] : List Char).length ∧
      (jsTrim ((['a', 'b', 'c'] : List Char).drop
        (['a', 'b', 'c'] : List Char).length)).length <
        (['a', 'b', 'c'] : List Char).length :=
  block_rule_match_consumes ['a', 'b', 'c'] ['a', 'b', 'c'] parseParagraphBlock e_frm_abc

theorem parseHeadingBlock_no_unmatched (inp t : List Char) :
    parseHeadingBlock inp ≠ .error (.unmatchedBlock t) := by
  intro h
  unfold parseHeadingBlock at h
  repeat' split at h
  all_goals first
    | exact Except.noConfusion h
    | exact ParseError.noConfusion (Except.error.inj h)

theorem parseParagraphBlock_no_unmatched (inp t : List Char) :
    parseParagraphBlock inp ≠ .error (.unmatchedBlock t) := by
  intro h
  unfold parseParagraphBlock at h
  repeat' split at h
  all_goals first
    | exact Except.noConfusion h
    | exact ParseError.noConfusion (Except.error.inj h)

theorem parseQuoteBlock_no_unmatched (inp t : List Char) :
    parseQuoteBlock inp ≠ .error (.unmatchedBlock t) := by
  intro h
  unfold parseQuoteBlock at h
  repeat' split at h
  all_goals first
    | exact Except.noConfusion h
    | exact ParseError.noConfusion (Except.error.inj h)

theorem parseListItem_no_unmatched (line t : List Char) :
    parseListItem line ≠ .error (.unmatchedBlock t) := by
  intro h
  unfold parseListItem at h
  repeat' split at h
  all_goals first
    | exact Except.noConfusion h
    | exact ParseError.noConfusion (Except.error.inj h)

theorem parseListItems_no_unmatched :
    ∀ lines t, parseListItems lines ≠ .error (.unmatchedBlock t) := by
  intro lines
  induction lines with
  | nil => intro t h; exact Except.noConfusion h
  | cons line rest ih =>
    intro t h
    rw [parseListItems] at h
    split at h
    · next e he =>
      have h2 : e = .unmatchedBlock t := Except.error.inj h
      subst h2
      exact parseListItem_no_unmatched line t he
    · split at h
      · next e he =>
        have h2 : e = .unmatchedBlock t := Except.error.inj h
        subst h2
        exact ih t he
      · exact Except.noConfusion h

theorem parseListBlock_no_unmatched (inp t : List Char) :
    parseListBlock inp ≠ .error (.unmatchedBlock t) := by
  intro h
  unfold parseListBlock at h
  split at h
  · next e he =>
    have h2 : e = .unmatchedBlock t := Except.error.inj h
    subst h2
    exact parseListItems_no_unmatched _ t he
  · exact Except.noConfusion h

theorem parseImageBlock_no_unmatched (inp t : List Char) :
    parseImageBlock inp ≠ .error (.unmatchedBlock t) := by
  intro h
  unfold parseImageBlock at h
  repeat' split at h
  all_goals first
    | exact Except.noConfusion h
    | exact ParseError.noConfusion (Except.error.inj h)

theorem parseCodeBlock_no_unmatched (inp t : List Char) :
    parseCodeBlock inp ≠ .error (.unmatchedBlock t) := by
  intro h
  unfold parseCodeBlock at h
  repeat' split at h
  all_goals first
    | exact Except.noConfusion h
    | exact ParseError.noConfusion (Except.error.inj h)

theorem parseThematicBreakBlock_no_unmatched (inp t : List Char) :
    parseThematicBreakBlock inp ≠ .error (.unmatchedBlock t) := by
  intro h
  exact Except.noConfusion h

theorem firstRuleMatch_none_all :
    ∀ pairs (s : List Char), firstRuleMatch pairs s = none →
      ∀ q ∈ pairs, q.1 s = none := by
  intro pairs
  induction pairs with
  | nil => intro s h q hq; exact absurd hq (List.not_mem_nil q)
  | cons q0 rest ih =>
    intro s h q hq
    match q0 with
    | (m, p) =>
      rw [firstRuleMatch] at h
      match h2 : m s with
      | some m0 => rw [h2] at h; exact Option.noConfusion h
      | none =>
        rw [h2] at h
        rcases List.mem_cons.mp hq with h3 | h3
        · subst h3; exact h2
        · exact ih s h q h3

theorem paragraphMatch_isSome (s : List Char) (h : s ≠ []) :
    (paragraphMatch s).isSome := by
  match s with
  | [] => exact absurd rfl h
  | c :: t =>
    rw [paragraphMatch.eq_def]
    split
    · next heq => exact absurd heq (by simp)
    · split <;> simp

theorem firstRuleMatch_isSome (s : List Char) (h : jsTrim s ≠ []) :
    (firstRuleMatch regexpToParserPairs s).isSome := by
  match h2 : firstRuleMatch regexpToParserPairs s with
  | some q => simp
  | none =>
    exfalso
    have hs : s ≠ [] := by
      intro he
      subst he
      exact h rfl
    have h3 : paragraphMatch s = none :=
      firstRuleMatch_none_all regexpToParserPairs s h2
        (paragraphMatch, parseParagraphBlock)
        (by simp [regexpToParserPairs])
    have h4 := paragraphMatch_isSome s hs
    rw [h3] at h4
    exact Bool.noConfusion h4

theorem firstRuleMatch_mem :
    ∀ pairs (s m0 : List Char) p, firstRuleMatch pairs s = some (m0, p) →
      ∃ q ∈ pairs, q.2 = p := by
  intro pairs
  induction pairs with
  | nil => intro s m0 p h; exact Option.noConfusion h
  | cons q0 rest ih =>
    intro s m0 p h
    match q0 with
    | (m, pb) =>
      rw [firstRuleMatch] at h
      match h2 : m s with
      | some m1 =>
        rw [h2] at h
        have h3 : pb = p := congrArg Prod.snd (Option.some.inj h)
        exact ⟨(m, pb), List.mem_cons_self _ _, h3⟩
      | none =>
        rw [h2] at h
        obtain ⟨q, hq, hq2⟩ := ih s m0 p h
        exact ⟨q, List.mem_cons_of_mem _ hq, hq2⟩

theorem firstRuleMatch_parser_no_unmatched (s m0 : List Char)
    (p : List Char → Except ParseError Block)
    (h : firstRuleMatch regexpToParserPairs s = some (m0, p)) :
    ∀ inp t, p inp ≠ .error (.unmatchedBlock t) := by
  obtain ⟨q, hq, hq2⟩ := firstRuleMatch_mem regexpToParserPairs s m0 p h
  subst hq2
  simp only [regexpToParserPairs, List.mem_cons, List.not_mem_nil, or_false] at hq
  rcases hq with h1 | h1 | h1 | h1 | h1 | h1 | h1 <;> subst h1
  · exact parseHeadingBlock_no_unmatched
  · exact parseQuoteBlock_no_unmatched
  · exact parseListBlock_no_unmatched
  · exact parseImageBlock_no_unmatched
  · exact parseCodeBlock_no_unmatched
  · exact parseThematicBreakBlock_no_unmatched
  · exact parseParagraphBlock_no_unmatched

theorem parseBlocks_no_unmatched_aux :
    ∀ n (s : List Char), s.length ≤ n →
      ∀ t, parseBlocks s ≠ .error (.unmatchedBlock t) := by
  intro n
  induction n with
  | zero =>
    intro s hlen t h
    have hs : s = [] := List.eq_nil_of_length_eq_zero (Nat.le_zero.mp hlen)
    subst hs
    rw [parseBlocks_nil] at h
    exact Except.noConfusion h
  | succ n ih =>
    intro s hlen t h
    rw [parseBlocks] at h
    split at h
    · exact Except.noConfusion h
    · next h0 =>
      split at h
      · next hfm =>
        have h4 := firstRuleMatch_isSome s h0
        rw [hfm] at h4
        exact Bool.noConfusion h4
      · next m0 p hfm =>
        split at h
        · next e he =>
          have h2 : e = .unmatchedBlock t := Except.error.inj h
          subst h2
          exact firstRuleMatch_parser_no_unmatched s m0 p hfm (jsTrim m0) t he
        · split at h
          · next e he =>
            have h2 : e = .unmatchedBlock t := Except.error.inj h
            subst h2
            have h5 := block_rule_match_consumes s m0 p hfm
            exact ih (jsTrim (s.drop m0.length)) (by omega) t he
          · exact Except.noConfusion h

/-- Claim C6: for every input whose trimmed text is non-empty, some rule of
`parseBlocks` matches (the paragraph fallback matches any non-empty text),
so the `No matching block found` error branch of `parseBlocks` is
unreachable: `parseBlocks` never returns that error, for any input. -/
theorem parseBlocks_noMatch_unreachable (s : List Char) :
    (jsTrim s ≠ [] → (firstRuleMatch regexpToParserPairs s).isSome) ∧
      ∀ t, parseBlocks s ≠ .error (.unmatchedBlock t) := by
  exact ⟨firstRuleMatch_isSome s, parseBlocks_no_unmatched_aux s.length s (Nat.le_refl _)⟩

/-- Witness for C6 at the concrete input "hello". -/
theorem parseBlocks_noMatch_unreachable_witness :
    (firstRuleMatch regexpToParserPairs (("hello").toList)).isSome ∧
      parseBlocks (("hello").toList) ≠ .error (.unmatchedBlock (("x").toList)) :=
  ⟨(parseBlocks_noMatch_unreachable (("hello").toList)).1 (by decide),
   (parseBlocks_noMatch_unreachable (("hello").toList)).2 (("x").toList)⟩

/-- Claim C1 (code bug): the embedded tokenizer is claimed never to fail,
but on "*a" the input ends with an open italic run while the finished-run
list is empty, and `result[result.length - 1].style` throws a TypeError
(modelled as `none`), both at the `parseTextBodyStyle` level and through
`parseTextBody`. -/
theorem tokenizer_crash_on_unterminated_with_empty_result :
    parseTextBodyStyle (("*a").toList) none [] = none ∧
      parseTextBody (("*a").toList) = none := by
  constructor
  · simp [parseTextBodyStyle, checkHeadStyle, backquote, jsOrEmpty, jsAppendChar, jsCoerce,
      unterminatedMark]
  · simp [parseTextBody, parseLinkInText, findLink, scanLabel, tryCloseLabel,
      expandLinkSegments, parseTextBodyStyle, checkHeadStyle, backquote, jsOrEmpty,
      jsAppendChar, filterTruthy]

/-- Counterexample to claim C3: on an input with two separately delimited
code spans the tokenizer returns two consecutive runs of the same (code)
style. -/
theorem tokenizer_adjacent_same_style_example :
    parseTextBodyStyle (("`a``b`").toList) none [] =
      some [⟨.code, some (("a").toList)⟩, ⟨.code, some (("b").toList)⟩] ∧
    ¬ List.Chain' (fun a b : TextBody => a.style ≠ b.style)
      [⟨.code, some (("a").toList)⟩, ⟨.code, some (("b").toList)⟩] := by
  constructor
  · simp [parseTextBodyStyle, checkHeadStyle, backquote, jsOrEmpty, jsAppendChar]
  · simp [List.chain'_cons]

/-- Counterexample to claim C4: a `*` inside an open code span is consumed
and dropped from every run value, so no re-insertion of the consumed
delimiters (here backticks) can reconstruct the input. -/
theorem tokenizer_drops_marker_inside_styled_run :
    parseTextBodyStyle (("`a*b`").toList) none [] =
      some [⟨.code, some (("ab").toList)⟩] ∧
    reconstructRuns [⟨.code, some (("ab").toList)⟩] ≠ ("`a*b`").toList := by
  constructor
  · simp [parseTextBodyStyle, checkHeadStyle, backquote, jsOrEmpty, jsAppendChar]
  · decide

/-- Counterexample to claim C5: an unterminated italic run opened with `*`
is merged into the preceding plain run re-prefixed with `_`, not with the
`*` that opened it. -/
theorem unterminated_star_italic_reprefixed_with_underscore :
    parseTextBodyStyle (("a*b").toList) none [] =
      some [⟨.plain, some (("a_b").toList)⟩] ∧
    (("a_b").toList : List Char) ≠ ("a*b").toList := by
  constructor
  · simp [parseTextBodyStyle, checkHeadStyle, backquote, jsOrEmpty, jsAppendChar, jsCoerce,
      unterminatedMark]
  · decide

/-- Claim C8: `parseLinkInText` (the link extractor) splits
"see [x](http://e) now" into exactly the text before, a link with a single
plain run "x" and url "http://e", and the text after; and on any input in
which the link pattern does not occur it returns the whole input as a
single string. -/
theorem extractLinks_example_and_no_link_identity :
    parseLinkInText (("see [x](http://e) now").toList) =
      some [.strSeg (("see ").toList),
        .linkSeg ⟨[⟨.plain, some (("x").toList)⟩], ("http://e").toList⟩,
        .strSeg ((" now").toList)] ∧
    ∀ s, findLink s = none → parseLinkInText s = some [.strSeg s] := by
  constructor
  · simp [parseLinkInText, findLink, scanLabel, tryCloseLabel, findUrl, lazyCloseParen,
      greedyGroup, lastIdxFromOne, jsOrEmpty, filterTruthy, parseTextBodyStyle,
      checkHeadStyle, backquote, jsAppendChar, jsCoerce, List.range, List.range.loop]
  · intro s hnone
    rw [parseLinkInText]
    split
    · rfl
    · next b l u a hfl =>
      rw [hnone] at hfl
      exact Option.noConfusion hfl

/-- Witness for C8's universally quantified part at the concrete input
"abc". -/
theorem extractLinks_example_and_no_link_identity_witness :
    parseLinkInText (("abc").toList) = some [.strSeg (("abc").toList)] :=
  extractLinks_example_and_no_link_identity.2 (("abc").toList) rfl

theorem scanLoop_step_pp (c : Char) (tl : List Char)
    (headText : List Char) (ptx : Option (List Char)) (result : List TextBody)
    (hck : checkHeadStyle (c :: tl) = (.plain, headText)) :
    scanLoop (c :: tl) (some (.plain, ptx)) result =
      scanLoop headText.tail
        (some (.plain, some (jsAppendChar (jsOrEmpty ptx) headText.head?))) result := by
  rw [scanLoop.eq_def]
  split
  · next heq => exact absurd heq (by simp)
  · next c2 tl2 heq =>
    injection heq with h1 h2
    subst h1 h2
    split
    next hs2 ht2 hck2 =>
      rw [hck] at hck2
      have h3 : TextBodyStyle.plain = hs2 := congrArg Prod.fst hck2
      have h4 : headText = ht2 := congrArg Prod.snd hck2
      subst h3 h4
      rfl

theorem scanLoop_step_ps (c : Char) (tl : List Char) (headStyle : TextBodyStyle)
    (headText : List Char) (ptx : Option (List Char)) (result : List TextBody)
    (hck : checkHeadStyle (c :: tl) = (headStyle, headText))
    (hns : headStyle ≠ .plain) :
    scanLoop (c :: tl) (some (.plain, ptx)) result =
      scanLoop headText.tail
        (some (headStyle, headText.head?.map (fun ch => [ch])))
        (result ++ [⟨.plain, ptx⟩]) := by
  rw [scanLoop.eq_def]
  split
  · next heq => exact absurd heq (by simp)
  · next c2 tl2 heq =>
    injection heq with h1 h2
    subst h1 h2
    split
    next hs2 ht2 hck2 =>
      rw [hck] at hck2
      have h3 : headStyle = hs2 := congrArg Prod.fst hck2
      have h4 : headText = ht2 := congrArg Prod.snd hck2
      subst h3 h4
      simp only [dif_pos rfl, if_neg hns]
      exact dif_pos trivial

theorem scanLoop_step_close (c : Char) (tl : List Char) (pst : TextBodyStyle)
    (headText : List Char) (ptx : Option (List Char)) (result : List TextBody)
    (hck : checkHeadStyle (c :: tl) = (pst, headText))
    (hps : pst ≠ .plain) :
    scanLoop (c :: tl) (some (pst, ptx)) result =
      scanLoop headText none (result ++ [⟨pst, some (jsOrEmpty ptx)⟩]) := by
  rw [scanLoop.eq_def]
  split
  · next heq => exact absurd heq (by simp)
  · next c2 tl2 heq =>
    injection heq with h1 h2
    subst h1 h2
    split
    next hs2 ht2 hck2 =>
      rw [hck] at hck2
      have h3 : pst = hs2 := congrArg Prod.fst hck2
      have h4 : headText = ht2 := congrArg Prod.snd hck2
      subst h3 h4
      simp only [dif_neg hps, dif_pos rfl]
      exact dif_pos trivial

theorem scanLoop_step_ext (c : Char) (tl : List Char) (pst headStyle : TextBodyStyle)
    (headText : List Char) (ptx : Option (List Char)) (result : List TextBody)
    (hck : checkHeadStyle (c :: tl) = (headStyle, headText))
    (hps : pst ≠ .plain) (hhp : headStyle ≠ pst) :
    scanLoop (c :: tl) (some (pst, ptx)) result =
      scanLoop headText.tail
        (some (pst, some (jsAppendChar (jsOrEmpty ptx) headText.head?))) result := by
  rw [scanLoop.eq_def]
  split
  · next heq => exact absurd heq (by simp)
  · next c2 tl2 heq =>
    injection heq with h1 h2
    subst h1 h2
    split
    next hs2 ht2 hck2 =>
      rw [hck] at hck2
      have h3 : headStyle = hs2 := congrArg Prod.fst hck2
      have h4 : headText = ht2 := congrArg Prod.snd hck2
      subst h3 h4
      simp only [dif_neg hps, dif_neg hhp]

theorem scanLoop_step_open (c : Char) (tl : List Char) (headStyle : TextBodyStyle)
    (headText : List Char) (result : List TextBody)
    (hck : checkHeadStyle (c :: tl) = (headStyle, headText)) :
    scanLoop (c :: tl) none result =
      scanLoop headText.tail
        (some (headStyle, headText.head?.map (fun ch => [ch]))) result := by
  rw [scanLoop.eq_def]
  split
  · next heq => exact absurd heq (by simp)
  · next c2 tl2 heq =>
    injection heq with h1 h2
    subst h1 h2
    split
    next hs2 ht2 hck2 =>
      rw [hck] at hck2
      have h3 : headStyle = hs2 := congrArg Prod.fst hck2
      have h4 : headText = ht2 := congrArg Prod.snd hck2
      subst h3 h4
      rfl

theorem parseTextBodyStyle_step_pp (c : Char) (tl : List Char)
    (headText : List Char) (ptx : Option (List Char)) (result : List TextBody)
    (hck : checkHeadStyle (c :: tl) = (.plain, headText)) :
    parseTextBodyStyle (c :: tl) (some (.plain, ptx)) result =
      parseTextBodyStyle headText.tail
        (some (.plain, some (jsAppendChar (jsOrEmpty ptx) headText.head?))) result := by
  rw [parseTextBodyStyle.eq_def]
  split
  · next heq => exact absurd heq (by simp)
  · next c2 tl2 heq =>
    injection heq with h1 h2
    subst h1 h2
    split
    next hs2 ht2 hck2 =>
      rw [hck] at hck2
      have h3 : TextBodyStyle.plain = hs2 := congrArg Prod.fst hck2
      have h4 : headText = ht2 := congrArg Prod.snd hck2
      subst h3 h4
      rfl

theorem parseTextBodyStyle_step_ps (c : Char) (tl : List Char) (headStyle : TextBodyStyle)
    (headText : List Char) (ptx : Option (List Char)) (result : List TextBody)
    (hck : checkHeadStyle (c :: tl) = (headStyle, headText))
    (hns : headStyle ≠ .plain) :
    parseTextBodyStyle (c :: tl) (some (.plain, ptx)) result =
      parseTextBodyStyle headText.tail
        (some (headStyle, headText.head?.map (fun ch => [ch])))
        (result ++ [⟨.plain, ptx⟩]) := by
  rw [parseTextBodyStyle.eq_def]
  split
  · next heq => exact absurd heq (by simp)
  · next c2 tl2 heq =>
    injection heq with h1 h2
    subst h1 h2
    split
    next hs2 ht2 hck2 =>
      rw [hck] at hck2
      have h3 : headStyle = hs2 := congrArg Prod.fst hck2
      have h4 : headText = ht2 := congrArg Prod.snd hck2
      subst h3 h4
      simp only [dif_pos rfl, if_neg hns]
      exact dif_pos trivial

theorem parseTextBodyStyle_step_close (c : Char) (tl : List Char) (pst : TextBodyStyle)
    (headText : List Char) (ptx : Option (List Char)) (result : List TextBody)
    (hck : checkHeadStyle (c :: tl) = (pst, headText))
    (hps : pst ≠ .plain) :
    parseTextBodyStyle (c :: tl) (some (pst, ptx)) result =
      parseTextBodyStyle headText none (result ++ [⟨pst, some (jsOrEmpty ptx)⟩]) := by
  rw [parseTextBodyStyle.eq_def]
  split
  · next heq => exact absurd heq (by simp)
  · next c2 tl2 heq =>
    injection heq with h1 h2
    subst h1 h2
    split
    next hs2 ht2 hck2 =>
      rw [hck] at hck2
      have h3 : pst = hs2 := congrArg Prod.fst hck2
      have h4 : headText = ht2 := congrArg Prod.snd hck2
      subst h3 h4
      simp only [dif_neg hps, dif_pos rfl]
      exact dif_pos trivial

theorem parseTextBodyStyle_step_ext (c : Char) (tl : List Char) (pst headStyle : TextBodyStyle)
    (headText : List Char) (ptx : Option (List Char)) (result : List TextBody)
    (hck : checkHeadStyle (c :: tl) = (headStyle, headText))
    (hps : pst ≠ .plain) (hhp : headStyle ≠ pst) :
    parseTextBodyStyle (c :: tl) (some (pst, ptx)) result =
      parseTextBodyStyle headText.tail
        (some (pst, some (jsAppendChar (jsOrEmpty ptx) headText.head?))) result := by
  rw [parseTextBodyStyle.eq_def]
  split
  · next heq => exact absurd heq (by simp)
  · next c2 tl2 heq =>
    injection heq with h1 h2
    subst h1 h2
    split
    next hs2 ht2 hck2 =>
      rw [hck] at hck2
      have h3 : headStyle = hs2 := congrArg Prod.fst hck2
      have h4 : headText = ht2 := congrArg Prod.snd hck2
      subst h3 h4
      simp only [dif_neg hps, dif_neg hhp]

theorem parseTextBodyStyle_step_open (c : Char) (tl : List Char) (headStyle : TextBodyStyle)
    (headText : List Char) (result : List TextBody)
    (hck : checkHeadStyle (c :: tl) = (headStyle, headText)) :
    parseTextBodyStyle (c :: tl) none result =
      parseTextBodyStyle headText.tail
        (some (headStyle, headText.head?.map (fun ch => [ch]))) result := by
  rw [parseTextBodyStyle.eq_def]
  split
  · next heq => exact absurd heq (by simp)
  · next c2 tl2 heq =>
    injection heq with h1 h2
    subst h1 h2
    split
    next hs2 ht2 hck2 =>
      rw [hck] at hck2
      have h3 : headStyle = hs2 := congrArg Prod.fst hck2
      have h4 : headText = ht2 := congrArg Prod.snd hck2
      subst h3 h4
      rfl

theorem standaloneParseTextBodyStyle_step_pp (c : Char) (tl : List Char)
    (headText : List Char) (ptx : Option (List Char)) (result : List TextBody)
    (hck : checkHeadStyle (c :: tl) = (.plain, headText)) :
    standaloneParseTextBodyStyle (c :: tl) (some (.plain, ptx)) result =
      standaloneParseTextBodyStyle headText.tail
        (some (.plain, some (jsAppendChar (jsOrEmpty ptx) headText.head?))) result := by
  rw [standaloneParseTextBodyStyle.eq_def]
  split
  · next heq => exact absurd heq (by simp)
  · next c2 tl2 heq =>
    injection heq with h1 h2
    subst h1 h2
    split
    next hs2 ht2 hck2 =>
      rw [hck] at hck2
      have h3 : TextBodyStyle.plain = hs2 := congrArg Prod.fst hck2
      have h4 : headText = ht2 := congrArg Prod.snd hck2
      subst h3 h4
      rfl

theorem standaloneParseTextBodyStyle_step_ps (c : Char) (tl : List Char) (headStyle : TextBodyStyle)
    (headText : List Char) (ptx : Option (List Char)) (result : List TextBody)
    (hck : checkHeadStyle (c :: tl) = (headStyle, headText))
    (hns : headStyle ≠ .plain) :
    standaloneParseTextBodyStyle (c :: tl) (some (.plain, ptx)) result =
      standaloneParseTextBodyStyle headText.tail
        (some (headStyle, headText.head?.map (fun ch => [ch])))
        (result ++ [⟨.plain, ptx⟩]) := by
  rw [standaloneParseTextBodyStyle.eq_def]
  split
  · next heq => exact absurd heq (by simp)
  · next c2 tl2 heq =>
    injection heq with h1 h2
    subst h1 h2
    split
    next hs2 ht2 hck2 =>
      rw [hck] at hck2
      have h3 : headStyle = hs2 := congrArg Prod.fst hck2
      have h4 : headText = ht2 := congrArg Prod.snd hck2
      subst h3 h4
      simp only [dif_pos rfl, if_neg hns]
      exact dif_pos trivial

theorem standaloneParseTextBodyStyle_step_close (c : Char) (tl : List Char) (pst : TextBodyStyle)
    (headText : List Char) (ptx : Option (List Char)) (result : List TextBody)
    (hck : checkHeadStyle (c :: tl) = (pst, headText))
    (hps : pst ≠ .plain) :
    standaloneParseTextBodyStyle (c :: tl) (some (pst, ptx)) result =
      standaloneParseTextBodyStyle headText none (result ++ [⟨pst, some (jsOrEmpty ptx)⟩]) := by
  rw [standaloneParseTextBodyStyle.eq_def]
  split
  · next heq => exact absurd heq (by simp)
  · next c2 tl2 heq =>
    injection heq with h1 h2
    subst h1 h2
    split
    next hs2 ht2 hck2 =>
      rw [hck] at hck2
      have h3 : pst = hs2 := congrArg Prod.fst hck2
      have h4 : headText = ht2 := congrArg Prod.snd hck2
      subst h3 h4
      simp only [dif_neg hps, dif_pos rfl]
      exact dif_pos trivial

theorem standaloneParseTextBodyStyle_step_ext (c : Char) (tl : List Char) (pst headStyle : TextBodyStyle)
    (headText : List Char) (ptx : Option (List Char)) (result : List TextBody)
    (hck : checkHeadStyle (c :: tl) = (headStyle, headText))
    (hps : pst ≠ .plain) (hhp : headStyle ≠ pst) :
    standaloneParseTextBodyStyle (c :: tl) (some (pst, ptx)) result =
      standaloneParseTextBodyStyle headText.tail
        (some (pst, some (jsAppendChar (jsOrEmpty ptx) headText.head?))) result := by
  rw [standaloneParseTextBodyStyle.eq_def]
  split
  · next heq => exact absurd heq (by simp)
  · next c2 tl2 heq =>
    injection heq with h1 h2
    subst h1 h2
    split
    next hs2 ht2 hck2 =>
      rw [hck] at hck2
      have h3 : headStyle = hs2 := congrArg Prod.fst hck2
      have h4 : headText = ht2 := congrArg Prod.snd hck2
      subst h3 h4
      simp only [dif_neg hps, dif_neg hhp]

theorem standaloneParseTextBodyStyle_step_open (c : Char) (tl : List Char) (headStyle : TextBodyStyle)
    (headText : List Char) (result : List TextBody)
    (hck : checkHeadStyle (c :: tl) = (headStyle, headText)) :
    standaloneParseTextBodyStyle (c :: tl) none result =
      standaloneParseTextBodyStyle headText.tail
        (some (headStyle, headText.head?.map (fun ch => [ch]))) result := by
  rw [standaloneParseTextBodyStyle.eq_def]
  split
  · next heq => exact absurd heq (by simp)
  · next c2 tl2 heq =>
    injection heq with h1 h2
    subst h1 h2
    split
    next hs2 ht2 hck2 =>
      rw [hck] at hck2
      have h3 : headStyle = hs2 := congrArg Prod.fst hck2
      have h4 : headText = ht2 := congrArg Prod.snd hck2
      subst h3 h4
      rfl


theorem parseTextBodyStyle_eq_scanLoop :
    ∀ t progress r, parseTextBodyStyle t progress r =
      finishEmbedded (scanLoop t progress r).1 (scanLoop t progress r).2 := by
  intro t0 p0 r0
  induction t0, p0, r0 using scanLoop.induct with
  | case1 p r =>
    rw [show scanLoop [] p r = (p, r) from by rw [scanLoop]]
    rw [parseTextBodyStyle.eq_def]
    exact rfl
  | case2 r c tl hs ht hck ih =>
    rw [parseTextBodyStyle_step_open c tl hs ht r hck, scanLoop_step_open c tl hs ht r hck]
    exact ih
  | case3 r c tl ht ptx hck ih =>
    rw [parseTextBodyStyle_step_pp c tl ht ptx r hck, scanLoop_step_pp c tl ht ptx r hck]
    exact ih
  | case4 r c tl hs ht hck ptx hns ih =>
    rw [parseTextBodyStyle_step_ps c tl hs ht ptx r hck hns,
      scanLoop_step_ps c tl hs ht ptx r hck hns]
    exact ih
  | case5 r c tl ht pst ptx hps hck ih =>
    rw [parseTextBodyStyle_step_close c tl pst ht ptx r hck hps,
      scanLoop_step_close c tl pst ht ptx r hck hps]
    exact ih
  | case6 r c tl hs ht hck pst ptx hps hhp ih =>
    rw [parseTextBodyStyle_step_ext c tl pst hs ht ptx r hck hps hhp,
      scanLoop_step_ext c tl pst hs ht ptx r hck hps hhp]
    exact ih

theorem standaloneParseTextBodyStyle_eq_scanLoop :
    ∀ t progress r, standaloneParseTextBodyStyle t progress r =
      finishStandalone (scanLoop t progress r).1 (scanLoop t progress r).2 := by
  intro t0 p0 r0
  induction t0, p0, r0 using scanLoop.induct with
  | case1 p r =>
    rw [show scanLoop [] p r = (p, r) from by rw [scanLoop]]
    rw [standaloneParseTextBodyStyle.eq_def]
    exact rfl
  | case2 r c tl hs ht hck ih =>
    rw [standaloneParseTextBodyStyle_step_open c tl hs ht r hck,
      scanLoop_step_open c tl hs ht r hck]
    exact ih
  | case3 r c tl ht ptx hck ih =>
    rw [standaloneParseTextBodyStyle_step_pp c tl ht ptx r hck,
      scanLoop_step_pp c tl ht ptx r hck]
    exact ih
  | case4 r c tl hs ht hck ptx hns ih =>
    rw [standaloneParseTextBodyStyle_step_ps c tl hs ht ptx r hck hns,
      scanLoop_step_ps c tl hs ht ptx r hck hns]
    exact ih
  | case5 r c tl ht pst ptx hps hck ih =>
    rw [standaloneParseTextBodyStyle_step_close c tl pst ht ptx r hck hps,
      scanLoop_step_close c tl pst ht ptx r hck hps]
    exact ih
  | case6 r c tl hs ht hck pst ptx hps hhp ih =>
    rw [standaloneParseTextBodyStyle_step_ext c tl pst hs ht ptx r hck hps hhp,
      scanLoop_step_ext c tl pst hs ht ptx r hck hps hhp]
    exact ih

/-- Claim C9: on every input whose scan ends without an open non-plain
styled run (so the unterminated-run merge special case never applies), the
standalone tokenizer of parseTextBody.ts and the embedded tokenizer of
parser.ts return equal sequences of (style, value) runs. -/
theorem embedded_and_standalone_tokenizers_agree (s : List Char)
    (h : (scanLoop s none []).1 = none ∨
      ∃ tx, (scanLoop s none []).1 = some (.plain, tx)) :
    parseTextBodyStyle s none [] = some (standaloneParseTextBodyStyle s none []) := by
  rw [parseTextBodyStyle_eq_scanLoop, standaloneParseTextBodyStyle_eq_scanLoop]
  rcases h with h | ⟨tx, h⟩ <;> rw [h] <;> rfl

/-- Witness for C9 at the concrete input "a". -/
theorem embedded_and_standalone_tokenizers_agree_witness :
    parseTextBodyStyle (("a").toList) none [] =
      some (standaloneParseTextBodyStyle (("a").toList) none []) :=
  embedded_and_standalone_tokenizers_agree (("a").toList)
    (Or.inr ⟨some (("a").toList), by
      simp [scanLoop, checkHeadStyle, backquote]⟩)

/-- Specification predicate: no two consecutive runs are both plain. -/
def noAdjacentPlain (rs : List TextBody) : Prop :=
  List.Chain' (fun a b => ¬(a.style = TextBodyStyle.plain ∧ b.style = TextBodyStyle.plain)) rs

/-- Loop invariant of the scan: the finished runs have no adjacent plain
pair, and while the current run is absent or plain the finished list is
empty or ends with a non-plain run. -/
def scanInvariant (p : Option (TextBodyStyle × Option (List Char)))
    (r : List TextBody) : Prop :=
  noAdjacentPlain r ∧
    ((p = none ∨ ∃ tx, p = some (TextBodyStyle.plain, tx)) →
      (r = [] ∨ ∃ y, r.getLast? = some y ∧ y.style ≠ TextBodyStyle.plain))

theorem noAdjacentPlain_append_nonplain (r : List TextBody) (x : TextBody)
    (hr : noAdjacentPlain r) (hx : x.style ≠ TextBodyStyle.plain) :
    noAdjacentPlain (r ++ [x]) := by
  unfold noAdjacentPlain at *
  rw [List.chain'_append]
  refine ⟨hr, List.chain'_singleton x, ?_⟩
  intro a ha y hy
  have hyx : y = x := by simp at hy; exact hy.symm
  subst hyx
  intro hc
  exact hx hc.2

theorem noAdjacentPlain_append_after_nonplain (r : List TextBody) (x : TextBody)
    (hr : noAdjacentPlain r)
    (hlast : r = [] ∨ ∃ y, r.getLast? = some y ∧ y.style ≠ TextBodyStyle.plain) :
    noAdjacentPlain (r ++ [x]) := by
  unfold noAdjacentPlain at *
  rw [List.chain'_append]
  refine ⟨hr, List.chain'_singleton x, ?_⟩
  intro a ha y hy
  rcases hlast with h | ⟨z, hz, hzs⟩
  · subst h; simp at ha
  · rw [hz] at ha
    have hay : a = z := by simp at ha; exact ha.symm
    subst hay
    intro hc
    exact hzs hc.1

theorem scan_noAdjacentPlain_aux :
    ∀ t (p : Option (TextBodyStyle × Option (List Char))) (r : List TextBody),
      scanInvariant p r → ∀ rs,
      finishEmbedded (scanLoop t p r).1 (scanLoop t p r).2 = some rs →
      noAdjacentPlain rs := by
  intro t0 p0 r0
  induction t0, p0, r0 using scanLoop.induct with
  | case1 p r =>
    intro hI rs h
    rw [show scanLoop [] p r = (p, r) from by rw [scanLoop]] at h
    match p, hI, h with
    | none, hI, h =>
      have h2 : (some r : Option (List TextBody)) = some rs := h
      have h3 := Option.some.inj h2
      subst h3
      exact hI.1
    | some (pst, ptx), hI, h =>
      have h2 : (if pst = TextBodyStyle.plain then
          some (r ++ [⟨pst, ptx⟩])
        else
          match r.getLast? with
          | none => none
          | some lastRun =>
            if lastRun.style = TextBodyStyle.plain then
              some (r.dropLast ++ [⟨.plain, some (jsCoerce lastRun.value ++
                unterminatedMark pst ++ jsCoerce ptx)⟩])
            else some (r ++ [⟨pst, ptx⟩])) = some rs := h
      split at h2
      · next hps =>
        subst hps
        have h3 := Option.some.inj h2
        subst h3
        exact noAdjacentPlain_append_after_nonplain r _ hI.1 (hI.2 (Or.inr ⟨ptx, rfl⟩))
      · next hps =>
        split at h2
        · exact Option.noConfusion h2
        · next lastRun hlast =>
          split at h2
          · next hlp =>
            have h3 := Option.some.inj h2
            subst h3
            have hne : r ≠ [] := by
              intro he
              subst he
              exact Option.noConfusion hlast
            have hdec : r.dropLast ++ [lastRun] = r := by
              have h4 := List.dropLast_append_getLast hne
              rw [List.getLast?_eq_getLast r hne] at hlast
              rw [Option.some.inj hlast] at h4
              exact h4
            have hchain : noAdjacentPlain (r.dropLast ++ [lastRun]) := by
              rw [hdec]; exact hI.1
            unfold noAdjacentPlain at hchain ⊢
            rw [List.chain'_append] at hchain ⊢
            refine ⟨hchain.1, List.chain'_singleton _, ?_⟩
            intro a ha y hy
            have h5 := hchain.2.2 a ha lastRun (by simp)
            intro hc
            exact h5 ⟨hc.1, hlp⟩
          · next hlp =>
            have h3 := Option.some.inj h2
            subst h3
            exact noAdjacentPlain_append_nonplain r _ hI.1 hps
  | case2 r c tl hs ht hck ih =>
    intro hI rs h
    rw [scanLoop_step_open c tl hs ht r hck] at h
    refine ih ⟨hI.1, ?_⟩ rs h
    intro hp
    exact hI.2 (Or.inl rfl)
  | case3 r c tl ht ptx hck ih =>
    intro hI rs h
    rw [scanLoop_step_pp c tl ht ptx r hck] at h
    refine ih ⟨hI.1, ?_⟩ rs h
    intro hp
    exact hI.2 (Or.inr ⟨ptx, rfl⟩)
  | case4 r c tl hs ht hck ptx hns ih =>
    intro hI rs h
    rw [scanLoop_step_ps c tl hs ht ptx r hck hns] at h
    refine ih ⟨?_, ?_⟩ rs h
    · exact noAdjacentPlain_append_after_nonplain r _ hI.1 (hI.2 (Or.inr ⟨ptx, rfl⟩))
    · intro hp
      exfalso
      rcases hp with hp | ⟨tx, hp⟩
      · exact Option.noConfusion hp
      · have h9 : hs = TextBodyStyle.plain := congrArg Prod.fst (Option.some.inj hp)
        exact hns h9
  | case5 r c tl ht pst ptx hps hck ih =>
    intro hI rs h
    rw [scanLoop_step_close c tl pst ht ptx r hck hps] at h
    refine ih ⟨?_, ?_⟩ rs h
    · exact noAdjacentPlain_append_nonplain r _ hI.1 hps
    · intro hp
      right
      exact ⟨⟨pst, some (jsOrEmpty ptx)⟩, by simp, hps⟩
  | case6 r c tl hs ht hck pst ptx hps hhp ih =>
    intro hI rs h
    rw [scanLoop_step_ext c tl pst hs ht ptx r hck hps hhp] at h
    refine ih ⟨hI.1, ?_⟩ rs h
    intro hp
    exfalso
    rcases hp with hp | ⟨tx, hp⟩
    · exact Option.noConfusion hp
    · have h9 : pst = TextBodyStyle.plain := congrArg Prod.fst (Option.some.inj hp)
      exact hps h9

/-- Amended claim C3: in any run sequence returned by the embedded
tokenizer, no two consecutive runs are both plain (consecutive runs of the
same non-plain style can occur). -/
theorem tokenizer_no_adjacent_plain_runs (t : List Char) (rs : List TextBody)
    (h : parseTextBodyStyle t none [] = some rs) :
    List.Chain' (fun a b => ¬(a.style = TextBodyStyle.plain ∧
      b.style = TextBodyStyle.plain)) rs := by
  rw [parseTextBodyStyle_eq_scanLoop] at h
  exact scan_noAdjacentPlain_aux t none []
    ⟨List.chain'_nil, fun _ => Or.inl rfl⟩ rs h

/-- Witness for the amended C3 at the concrete input "a*b*". -/
theorem tokenizer_no_adjacent_plain_runs_witness :
    List.Chain' (fun a b : TextBody => ¬(a.style = TextBodyStyle.plain ∧
      b.style = TextBodyStyle.plain))
      ([⟨.plain, some (("a").toList)⟩, ⟨.italic, some (("b").toList)⟩] : List TextBody) :=
  tokenizer_no_adjacent_plain_runs (("a*b*").toList)
    [⟨.plain, some (("a").toList)⟩, ⟨.italic, some (("b").toList)⟩]
    (by simp [parseTextBodyStyle, checkHeadStyle, backquote, jsOrEmpty, jsAppendChar])

/-- Amended claim C5: when the scan ends with an open non-plain run and the
finished runs end with a plain run, the unterminated content is merged into
that plain run re-prefixed with the canonical marker of the style
(`unterminatedMark`): backtick for code, `**` for strong, and `_` for
italic regardless of which character opened the run. -/
theorem unterminated_merge_reprefixes_canonical_mark (s : List Char)
    (st : TextBodyStyle) (tx v : Option (List Char)) (r : List TextBody)
    (hscan : scanLoop s none [] = (some (st, tx), r ++ [⟨.plain, v⟩]))
    (hst : st ≠ .plain) :
    parseTextBodyStyle s none [] =
      some (r ++ [⟨.plain, some (jsCoerce v ++ unterminatedMark st ++ jsCoerce tx)⟩]) := by
  rw [parseTextBodyStyle_eq_scanLoop, hscan]
  show finishEmbedded (some (st, tx)) (r ++ [⟨.plain, v⟩]) = _
  simp only [finishEmbedded, List.getLast?_concat, List.dropLast_concat, if_neg hst]
  exact if_pos trivial

/-- Witness for the amended C5 at the concrete input "a*b". -/
theorem unterminated_merge_reprefixes_canonical_mark_witness :
    parseTextBodyStyle (("a*b").toList) none [] =
      some ([] ++ [⟨.plain, some (jsCoerce (some (("a").toList)) ++
        unterminatedMark .italic ++ jsCoerce (some (("b").toList)))⟩]) :=
  unterminated_merge_reprefixes_canonical_mark (("a*b").toList) .italic
    (some (("b").toList)) (some (("a").toList)) []
    (by simp [scanLoop, checkHeadStyle, backquote, jsOrEmpty, jsAppendChar])
    (by decide)

/- Segment grammar for the amended round-trip claim (C4): inputs built from
non-empty marker-free spans, styled spans delimited on both sides by the
canonical marker of their style, no two adjacent plain spans. -/

def markerFree (t : List Char) : Bool :=
  t.all (fun c => decide (c ≠ '*' ∧ c ≠ '_' ∧ c ≠ backquote))

inductive Seg where
  | plainSeg (t : List Char)
  | styledSeg (st : TextBodyStyle) (content : List Char)
deriving DecidableEq

def segOK : Seg → Bool
  | .plainSeg t => decide (t ≠ []) && markerFree t
  | .styledSeg st c => decide (st ≠ TextBodyStyle.plain) && (decide (c ≠ []) && markerFree c)

def headNotPlainSeg : List Seg → Bool
  | .plainSeg _ :: _ => false
  | _ => true

def WFsegs : List Seg → Bool
  | [] => true
  | .plainSeg t :: rest => segOK (.plainSeg t) && (headNotPlainSeg rest && WFsegs rest)
  | .styledSeg st c :: rest => segOK (.styledSeg st c) && WFsegs rest

def renderSeg : Seg → List Char
  | .plainSeg t => t
  | .styledSeg st c => unterminatedMark st ++ c ++ unterminatedMark st

def renderSegs : List Seg → List Char
  | [] => []
  | s :: rest => renderSeg s ++ renderSegs rest

def segRun : Seg → TextBody
  | .plainSeg t => ⟨.plain, some t⟩
  | .styledSeg st c => ⟨st, some c⟩

def reinsertMarks : List TextBody → List Char
  | [] => []
  | r :: rs =>
    (if r.style = TextBodyStyle.plain then jsOrEmpty r.value
     else unterminatedMark r.style ++ jsOrEmpty r.value ++ unterminatedMark r.style) ++
      reinsertMarks rs

theorem markerFree_cons (c : Char) (tl : List Char) :
    markerFree (c :: tl) = true ↔
      (c ≠ '*' ∧ c ≠ '_' ∧ c ≠ backquote) ∧ markerFree tl = true := by
  simp [markerFree, List.all_cons]

theorem checkHeadStyle_plainChar (c : Char) (tl : List Char)
    (h1 : c ≠ '*') (h2 : c ≠ '_') (h3 : c ≠ backquote) :
    checkHeadStyle (c :: tl) = (.plain, c :: tl) := by
  unfold checkHeadStyle
  rw [if_neg, if_neg, if_neg, if_neg]
  · intro h; rw [List.take_succ_cons] at h; injection h with ha _; exact h3 ha
  · intro h; rw [List.take_succ_cons] at h; injection h with ha _; exact h2 ha
  · intro h; rw [List.take_succ_cons] at h; injection h with ha _; exact h1 ha
  · intro h; rw [List.take_succ_cons] at h; injection h with ha _; exact h1 ha

theorem checkHeadStyle_underscore (tl : List Char) :
    checkHeadStyle ('_' :: tl) = (.italic, tl) := by
  unfold checkHeadStyle
  rw [if_neg, if_neg, if_pos (show List.take 1 ('_' :: tl) = ['_'] from rfl)]
  · rfl
  · intro h; rw [List.take_succ_cons] at h; injection h with ha _; exact absurd ha (by decide)
  · intro h; rw [List.take_succ_cons] at h; injection h with ha _; exact absurd ha (by decide)

theorem checkHeadStyle_star2 (tl : List Char) :
    checkHeadStyle ('*' :: '*' :: tl) = (.strong, tl) := by
  unfold checkHeadStyle
  rw [if_pos (show List.take 2 ('*' :: '*' :: tl) = ['*', '*'] from rfl)]
  rfl

theorem checkHeadStyle_backquote (tl : List Char) :
    checkHeadStyle (backquote :: tl) = (.code, tl) := by
  unfold checkHeadStyle
  rw [if_neg, if_neg, if_neg, if_pos (show List.take 1 (backquote :: tl) = [backquote] from rfl)]
  · rfl
  · intro h; rw [List.take_succ_cons] at h; injection h with ha _; exact absurd ha (by decide)
  · intro h; rw [List.take_succ_cons] at h; injection h with ha _; exact absurd ha (by decide)
  · intro h; rw [List.take_succ_cons] at h; injection h with ha _; exact absurd ha (by decide)

theorem ptbs_nil_none (res : List TextBody) :
    parseTextBodyStyle [] none res = some res := by
  rw [parseTextBodyStyle.eq_def]

theorem ptbs_nil_plain (v : Option (List Char)) (res : List TextBody) :
    parseTextBodyStyle [] (some (.plain, v)) res = some (res ++ [⟨.plain, v⟩]) := by
  rw [parseTextBodyStyle.eq_def]
  simp

theorem styledScan (st : TextBodyStyle) (t : List Char) :
    ∀ (after v : List Char) (res : List TextBody),
    st ≠ TextBodyStyle.plain → markerFree t = true →
    parseTextBodyStyle (t ++ (unterminatedMark st ++ after)) (some (st, some v)) res =
      parseTextBodyStyle after none (res ++ [⟨st, some (v ++ t)⟩]) := by
  induction t with
  | nil =>
    intro after v res hst _
    simp only [List.nil_append, List.append_nil]
    cases st with
    | plain => exact absurd rfl hst
    | italic =>
      rw [show unterminatedMark .italic ++ after = '_' :: after from rfl]
      rw [parseTextBodyStyle_step_close '_' after .italic after (some v) res
        (checkHeadStyle_underscore after) hst]
      rfl
    | strong =>
      rw [show unterminatedMark .strong ++ after = '*' :: '*' :: after from rfl]
      rw [parseTextBodyStyle_step_close '*' ('*' :: after) .strong after (some v) res
        (checkHeadStyle_star2 after) hst]
      rfl
    | code =>
      rw [show unterminatedMark .code ++ after = backquote :: after from rfl]
      rw [parseTextBodyStyle_step_close backquote after .code after (some v) res
        (checkHeadStyle_backquote after) hst]
      rfl
  | cons ch tl ih =>
    intro after v res hst hmf
    obtain ⟨⟨h1, h2, h3⟩, hmf'⟩ := (markerFree_cons ch tl).mp hmf
    rw [List.cons_append]
    rw [parseTextBodyStyle_step_ext ch (tl ++ (unterminatedMark st ++ after)) st .plain
      (ch :: (tl ++ (unterminatedMark st ++ after))) (some v) res
      (checkHeadStyle_plainChar ch _ h1 h2 h3) hst (Ne.symm hst)]
    simp only [List.tail_cons, List.head?_cons, jsOrEmpty, jsAppendChar]
    rw [ih after (v ++ [ch]) res hst hmf']
    simp

theorem plainScan (t : List Char) :
    ∀ (after v : List Char) (res : List TextBody),
    markerFree t = true →
    parseTextBodyStyle (t ++ after) (some (.plain, some v)) res =
      parseTextBodyStyle after (some (.plain, some (v ++ t))) res := by
  induction t with
  | nil =>
    intro after v res _
    simp only [List.nil_append, List.append_nil]
  | cons ch tl ih =>
    intro after v res hmf
    obtain ⟨⟨h1, h2, h3⟩, hmf'⟩ := (markerFree_cons ch tl).mp hmf
    rw [List.cons_append]
    rw [parseTextBodyStyle_step_pp ch (tl ++ after) (ch :: (tl ++ after)) (some v) res
      (checkHeadStyle_plainChar ch _ h1 h2 h3)]
    simp only [List.tail_cons, List.head?_cons, jsOrEmpty, jsAppendChar]
    rw [ih after (v ++ [ch]) res hmf']
    simp

theorem styledOpen (st : TextBodyStyle) (c0 : Char) (ctl after : List Char)
    (res : List TextBody) (hst : st ≠ TextBodyStyle.plain)
    (hmf : markerFree (c0 :: ctl) = true) :
    parseTextBodyStyle
      (unterminatedMark st ++ ((c0 :: ctl) ++ (unterminatedMark st ++ after))) none res =
      parseTextBodyStyle after none (res ++ [⟨st, some (c0 :: ctl)⟩]) := by
  obtain ⟨_, hmf'⟩ := (markerFree_cons c0 ctl).mp hmf
  cases st with
  | plain => exact absurd rfl hst
  | italic =>
    rw [show ∀ Y : List Char, unterminatedMark TextBodyStyle.italic ++ Y = '_' :: Y
      from fun _ => rfl]
    rw [parseTextBodyStyle_step_open '_' ((c0 :: ctl) ++ (unterminatedMark .italic ++ after))
      .italic ((c0 :: ctl) ++ (unterminatedMark .italic ++ after)) res
      (checkHeadStyle_underscore _)]
    simp only [List.cons_append, List.tail_cons, List.head?_cons, Option.map_some']
    rw [styledScan .italic ctl after [c0] res hst hmf']
    rfl
  | strong =>
    rw [show ∀ Y : List Char, unterminatedMark TextBodyStyle.strong ++ Y = '*' :: '*' :: Y
      from fun _ => rfl]
    rw [parseTextBodyStyle_step_open '*' ('*' :: ((c0 :: ctl) ++ (unterminatedMark .strong ++ after)))
      .strong ((c0 :: ctl) ++ (unterminatedMark .strong ++ after)) res
      (checkHeadStyle_star2 _)]
    simp only [List.cons_append, List.tail_cons, List.head?_cons, Option.map_some']
    rw [styledScan .strong ctl after [c0] res hst hmf']
    rfl
  | code =>
    rw [show ∀ Y : List Char, unterminatedMark TextBodyStyle.code ++ Y = backquote :: Y
      from fun _ => rfl]
    rw [parseTextBodyStyle_step_open backquote ((c0 :: ctl) ++ (unterminatedMark .code ++ after))
      .code ((c0 :: ctl) ++ (unterminatedMark .code ++ after)) res
      (checkHeadStyle_backquote _)]
    simp only [List.cons_append, List.tail_cons, List.head?_cons, Option.map_some']
    rw [styledScan .code ctl after [c0] res hst hmf']
    rfl

theorem styledOpenFromPlain (st : TextBodyStyle) (c0 : Char) (ctl after : List Char)
    (ptx : Option (List Char)) (res : List TextBody) (hst : st ≠ TextBodyStyle.plain)
    (hmf : markerFree (c0 :: ctl) = true) :
    parseTextBodyStyle
      (unterminatedMark st ++ ((c0 :: ctl) ++ (unterminatedMark st ++ after)))
      (some (.plain, ptx)) res =
      parseTextBodyStyle after none ((res ++ [⟨.plain, ptx⟩]) ++ [⟨st, some (c0 :: ctl)⟩]) := by
  obtain ⟨_, hmf'⟩ := (markerFree_cons c0 ctl).mp hmf
  cases st with
  | plain => exact absurd rfl hst
  | italic =>
    rw [show ∀ Y : List Char, unterminatedMark TextBodyStyle.italic ++ Y = '_' :: Y
      from fun _ => rfl]
    rw [parseTextBodyStyle_step_ps '_' ((c0 :: ctl) ++ (unterminatedMark .italic ++ after))
      .italic ((c0 :: ctl) ++ (unterminatedMark .italic ++ after)) ptx res
      (checkHeadStyle_underscore _) hst]
    simp only [List.cons_append, List.tail_cons, List.head?_cons, Option.map_some']
    rw [styledScan .italic ctl after [c0] (res ++ [TextBody.mk TextBodyStyle.plain ptx]) hst hmf']
    rfl
  | strong =>
    rw [show ∀ Y : List Char, unterminatedMark TextBodyStyle.strong ++ Y = '*' :: '*' :: Y
      from fun _ => rfl]
    rw [parseTextBodyStyle_step_ps '*' ('*' :: ((c0 :: ctl) ++ (unterminatedMark .strong ++ after)))
      .strong ((c0 :: ctl) ++ (unterminatedMark .strong ++ after)) ptx res
      (checkHeadStyle_star2 _) hst]
    simp only [List.cons_append, List.tail_cons, List.head?_cons, Option.map_some']
    rw [styledScan .strong ctl after [c0] (res ++ [TextBody.mk TextBodyStyle.plain ptx]) hst hmf']
    rfl
  | code =>
    rw [show ∀ Y : List Char, unterminatedMark TextBodyStyle.code ++ Y = backquote :: Y
      from fun _ => rfl]
    rw [parseTextBodyStyle_step_ps backquote ((c0 :: ctl) ++ (unterminatedMark .code ++ after))
      .code ((c0 :: ctl) ++ (unterminatedMark .code ++ after)) ptx res
      (checkHeadStyle_backquote _) hst]
    simp only [List.cons_append, List.tail_cons, List.head?_cons, Option.map_some']
    rw [styledScan .code ctl after [c0] (res ++ [TextBody.mk TextBodyStyle.plain ptx]) hst hmf']
    rfl

theorem segsScanAux : ∀ (n : Nat) (segs : List Seg) (res : List TextBody),
    segs.length ≤ n → WFsegs segs = true →
    parseTextBodyStyle (renderSegs segs) none res = some (res ++ List.map segRun segs) := by
  intro n
  induction n with
  | zero =>
    intro segs res hlen _
    have hnil : segs = [] := List.eq_nil_of_length_eq_zero (Nat.le_zero.mp hlen)
    subst hnil
    rw [show renderSegs [] = [] from rfl, ptbs_nil_none]
    simp
  | succ n ih =>
    intro segs res hlen hwf
    cases segs with
    | nil =>
      rw [show renderSegs [] = [] from rfl, ptbs_nil_none]
      simp
    | cons s rest =>
      cases s with
      | styledSeg st c =>
        simp only [WFsegs, segOK, Bool.and_eq_true, decide_eq_true_eq] at hwf
        obtain ⟨⟨hst, hcne, hcmf⟩, hwrest⟩ := hwf
        obtain ⟨c0, ctl, rfl⟩ := List.exists_cons_of_ne_nil hcne
        rw [show renderSegs (Seg.styledSeg st (c0 :: ctl) :: rest) =
          unterminatedMark st ++ ((c0 :: ctl) ++ (unterminatedMark st ++ renderSegs rest))
          from by simp [renderSegs, renderSeg, List.append_assoc]]
        rw [styledOpen st c0 ctl (renderSegs rest) res hst hcmf]
        rw [ih rest _ (by simp only [List.length_cons] at hlen; omega) hwrest]
        simp [segRun, List.append_assoc]
      | plainSeg t =>
        simp only [WFsegs, segOK, Bool.and_eq_true, decide_eq_true_eq] at hwf
        obtain ⟨⟨htne, htmf⟩, hnp, hwrest⟩ := hwf
        obtain ⟨t0, ttl, rfl⟩ := List.exists_cons_of_ne_nil htne
        obtain ⟨⟨h1, h2, h3⟩, htmf'⟩ := (markerFree_cons t0 ttl).mp htmf
        rw [show renderSegs (Seg.plainSeg (t0 :: ttl) :: rest) =
          t0 :: (ttl ++ renderSegs rest) from by simp [renderSegs, renderSeg]]
        rw [parseTextBodyStyle_step_open t0 (ttl ++ renderSegs rest) .plain
          (t0 :: (ttl ++ renderSegs rest)) res (checkHeadStyle_plainChar t0 _ h1 h2 h3)]
        simp only [List.tail_cons, List.head?_cons, Option.map_some']
        rw [plainScan ttl (renderSegs rest) [t0] res htmf']
        simp only [List.singleton_append]
        cases rest with
        | nil =>
          rw [show renderSegs [] = [] from rfl, ptbs_nil_plain]
          simp [segRun]
        | cons s2 rest' =>
          cases s2 with
          | plainSeg u => simp [headNotPlainSeg] at hnp
          | styledSeg st c =>
            simp only [WFsegs, segOK, Bool.and_eq_true, decide_eq_true_eq] at hwrest
            obtain ⟨⟨hst, hcne, hcmf⟩, hwrest'⟩ := hwrest
            obtain ⟨c0, ctl, rfl⟩ := List.exists_cons_of_ne_nil hcne
            rw [show renderSegs (Seg.styledSeg st (c0 :: ctl) :: rest') =
              unterminatedMark st ++ ((c0 :: ctl) ++ (unterminatedMark st ++ renderSegs rest'))
              from by simp [renderSegs, renderSeg, List.append_assoc]]
            rw [styledOpenFromPlain st c0 ctl (renderSegs rest') (some (t0 :: ttl)) res hst hcmf]
            rw [ih rest' _ (by simp only [List.length_cons] at hlen; omega) hwrest']
            simp [segRun, List.append_assoc]

theorem reinsert_render : ∀ segs : List Seg, WFsegs segs = true →
    reinsertMarks (List.map segRun segs) = renderSegs segs := by
  intro segs
  induction segs with
  | nil => intro _; rfl
  | cons s rest ihr =>
    intro hwf
    cases s with
    | plainSeg t =>
      simp only [WFsegs, Bool.and_eq_true] at hwf
      obtain ⟨_, _, hwrest⟩ := hwf
      simp only [List.map_cons, reinsertMarks, segRun, renderSegs, renderSeg, jsOrEmpty,
        ihr hwrest]
      rw [if_pos trivial]
    | styledSeg st c =>
      simp only [WFsegs, segOK, Bool.and_eq_true, decide_eq_true_eq] at hwf
      obtain ⟨⟨hst, _, _⟩, hwrest⟩ := hwf
      simp only [List.map_cons, reinsertMarks, segRun, renderSegs, renderSeg, jsOrEmpty,
        ihr hwrest]
      rw [if_neg hst]

/-- Corrected claim C4 (amended): marker characters inside a styled run are
silently dropped, so the round-trip fails in general
(`tokenizer_drops_marker_inside_styled_run`); but for every input assembled
from non-empty marker-free spans — plain spans never adjacent, styled spans
delimited on both sides by the canonical marker of their style (code
backtick, strong double star, italic underscore) — the tokenizer emits
exactly one run per span, and concatenating the run values with the marker
characters re-inserted at each style boundary reconstructs the original
input exactly. -/
theorem tokenizer_roundtrip_on_canonical_segments (segs : List Seg)
    (hwf : WFsegs segs = true) :
    parseTextBodyStyle (renderSegs segs) none [] = some (List.map segRun segs) ∧
      reinsertMarks (List.map segRun segs) = renderSegs segs := by
  constructor
  · have h := segsScanAux segs.length segs [] (Nat.le_refl _) hwf
    simpa using h
  · exact reinsert_render segs hwf

/-- Witness for the amended C4: the input "a`b`_c_" built from the segments
plain "a", code "b", italic "c". -/
theorem tokenizer_roundtrip_on_canonical_segments_witness :
    WFsegs [Seg.plainSeg (("a").toList), Seg.styledSeg .code (("b").toList),
      Seg.styledSeg .italic (("c").toList)] = true ∧
    (parseTextBodyStyle (renderSegs [Seg.plainSeg (("a").toList),
        Seg.styledSeg .code (("b").toList), Seg.styledSeg .italic (("c").toList)]) none [] =
      some (List.map segRun [Seg.plainSeg (("a").toList),
        Seg.styledSeg .code (("b").toList), Seg.styledSeg .italic (("c").toList)]) ∧
      reinsertMarks (List.map segRun [Seg.plainSeg (("a").toList),
        Seg.styledSeg .code (("b").toList), Seg.styledSeg .italic (("c").toList)]) =
        renderSegs [Seg.plainSeg (("a").toList), Seg.styledSeg .code (("b").toList),
          Seg.styledSeg .italic (("c").toList)]) :=
  ⟨by decide, tokenizer_roundtrip_on_canonical_segments _ (by decide)⟩

/- Quote-line inputs for the amended C7: one or more lines, each written
as a literal `>` followed by a single space and the line's content. -/

def quoteTailRender : List (List Char) → List Char
  | [] => []
  | [c] => c
  | c :: cs => c ++ '\n' :: '>' :: ' ' :: quoteTailRender cs

def quoteLinesRender (cs : List (List Char)) : List Char :=
  match cs with
  | [] => []
  | _ => '>' :: ' ' :: quoteTailRender cs

def linesJoin : List (List Char) → List Char
  | [] => []
  | [c] => c
  | c :: cs => c ++ '\n' :: linesJoin cs

theorem takeWhile_noNL (c : List Char) (h : '\n' ∉ c) :
    c.takeWhile (fun c2 => c2 ≠ '\n') = c := by
  induction c with
  | nil => rfl
  | cons a t ih =>
    rw [List.takeWhile_cons_of_pos]
    · rw [ih (fun hm => h (List.mem_cons_of_mem a hm))]
    · simp only [ne_eq, decide_eq_true_eq]
      intro ha
      exact h (ha ▸ List.mem_cons_self a t)

theorem dropWhile_noNL (c : List Char) (h : '\n' ∉ c) :
    c.dropWhile (fun c2 => c2 ≠ '\n') = [] := by
  induction c with
  | nil => rfl
  | cons a t ih =>
    rw [List.dropWhile_cons_of_pos]
    · exact ih (fun hm => h (List.mem_cons_of_mem a hm))
    · simp only [ne_eq, decide_eq_true_eq]
      intro ha
      exact h (ha ▸ List.mem_cons_self a t)

theorem takeWhile_noNL_append (c l : List Char) (h : '\n' ∉ c) :
    (c ++ '\n' :: l).takeWhile (fun c2 => c2 ≠ '\n') = c := by
  induction c with
  | nil =>
    rw [List.nil_append, List.takeWhile_cons_of_neg]
    simp
  | cons a t ih =>
    rw [List.cons_append, List.takeWhile_cons_of_pos]
    · rw [ih (fun hm => h (List.mem_cons_of_mem a hm))]
    · simp only [ne_eq, decide_eq_true_eq]
      intro ha
      exact h (ha ▸ List.mem_cons_self a t)

theorem dropWhile_noNL_append (c l : List Char) (h : '\n' ∉ c) :
    (c ++ '\n' :: l).dropWhile (fun c2 => c2 ≠ '\n') = '\n' :: l := by
  induction c with
  | nil =>
    rw [List.nil_append, List.dropWhile_cons_of_neg]
    simp
  | cons a t ih =>
    rw [List.cons_append, List.dropWhile_cons_of_pos]
    · exact ih (fun hm => h (List.mem_cons_of_mem a hm))
    · simp only [ne_eq, decide_eq_true_eq]
      intro ha
      exact h (ha ▸ List.mem_cons_self a t)

theorem quoteLineMatch_last (c : List Char) (hno : '\n' ∉ c) :
    quoteLineMatch ('>' :: ' ' :: c) = some ('>' :: ' ' :: c, []) := by
  rw [quoteLineMatch.eq_def]
  split
  · next c2 t heq =>
    injection heq with h1 hrest
    injection hrest with h2 ht
    subst h2 ht
    rw [if_pos (by decide)]
    rw [dropWhile_noNL c hno, takeWhile_noNL c hno]
  · next hno2 => exact absurd rfl (hno2 ' ' c)

theorem quoteLineMatch_mid (c rest : List Char) (hno : '\n' ∉ c) :
    quoteLineMatch ('>' :: ' ' :: (c ++ '\n' :: rest)) =
      some ('>' :: ' ' :: (c ++ ['\n']), rest) := by
  rw [quoteLineMatch.eq_def]
  split
  · next c2 t heq =>
    injection heq with h1 hrest
    injection hrest with h2 ht
    subst h2 ht
    rw [if_pos (by decide)]
    rw [dropWhile_noNL_append c rest hno, takeWhile_noNL_append c rest hno]
    rfl
  · next hno2 => exact absurd rfl (hno2 ' ' (c ++ '\n' :: rest))

theorem quoteMatchLoop_nil : quoteMatchLoop [] = none := by
  rw [quoteMatchLoop]
  exact rfl

theorem quoteMatchLoop_render : ∀ cs : List (List Char), cs ≠ [] →
    (∀ c ∈ cs, '\n' ∉ c) →
    quoteMatchLoop (quoteLinesRender cs) = some (quoteLinesRender cs, []) := by
  intro cs
  induction cs with
  | nil => intro h _; exact absurd rfl h
  | cons c cs' ih =>
    intro _ hnl
    cases cs' with
    | nil =>
      rw [show quoteLinesRender [c] = '>' :: ' ' :: c from rfl]
      rw [quoteMatchLoop_step ('>' :: ' ' :: c) ('>' :: ' ' :: c) []
        (quoteLineMatch_last c (hnl c (List.mem_cons_self c [])))]
      rw [quoteMatchLoop_nil]
    | cons c2 cs'' =>
      have hr : quoteLinesRender (c :: c2 :: cs'') =
          '>' :: ' ' :: (c ++ '\n' :: quoteLinesRender (c2 :: cs'')) := by
        rw [show quoteLinesRender (c :: c2 :: cs'') =
          '>' :: ' ' :: quoteTailRender (c :: c2 :: cs'') from rfl]
        rw [show quoteTailRender (c :: c2 :: cs'') =
          c ++ '\n' :: '>' :: ' ' :: quoteTailRender (c2 :: cs'') from rfl]
        rfl
      rw [hr]
      rw [quoteMatchLoop_step ('>' :: ' ' :: (c ++ '\n' :: quoteLinesRender (c2 :: cs'')))
        ('>' :: ' ' :: (c ++ ['\n'])) (quoteLinesRender (c2 :: cs''))
        (quoteLineMatch_mid c (quoteLinesRender (c2 :: cs''))
          (hnl c (List.mem_cons_self c (c2 :: cs''))))]
      rw [ih (by simp) (fun x hx => hnl x (List.mem_cons_of_mem c hx))]
      simp [List.append_assoc]

theorem replQuoteMarks_cons_ne (c : Char) (t : List Char) (h : c ≠ '\n') :
    replQuoteMarks (c :: t) = c :: replQuoteMarks t := by
  rw [replQuoteMarks.eq_def]
  split
  · next t2 heq => injection heq with h1 _; exact absurd h1 h
  · next t2 heq => injection heq with h1 _; exact absurd h1 h
  · next c2 t2 heq => injection heq with h1 h2; subst h1 h2; rfl
  · next x heq => exact absurd heq (by simp)

theorem replQuoteMarks_append_noNL (c s : List Char) (h : '\n' ∉ c) :
    replQuoteMarks (c ++ s) = c ++ replQuoteMarks s := by
  induction c with
  | nil => rfl
  | cons a t ih =>
    rw [List.cons_append,
      replQuoteMarks_cons_ne a (t ++ s) (fun ha => h (ha ▸ List.mem_cons_self a t)),
      ih (fun hm => h (List.mem_cons_of_mem a hm)), List.cons_append]

theorem replQuoteMarks_nl (t : List Char) :
    replQuoteMarks ('\n' :: '>' :: ' ' :: t) = '\n' :: replQuoteMarks t := rfl

theorem replQuoteMarks_tail : ∀ cs : List (List Char), (∀ c ∈ cs, '\n' ∉ c) →
    replQuoteMarks (quoteTailRender cs) = linesJoin cs := by
  intro cs
  induction cs with
  | nil => intro _; rfl
  | cons c cs' ih =>
    intro hnl
    cases cs' with
    | nil =>
      show replQuoteMarks c = c
      have h := replQuoteMarks_append_noNL c [] (hnl c (List.mem_cons_self c []))
      simpa [show replQuoteMarks [] = [] from rfl] using h
    | cons c2 cs'' =>
      rw [show quoteTailRender (c :: c2 :: cs'') =
        c ++ '\n' :: '>' :: ' ' :: quoteTailRender (c2 :: cs'') from rfl]
      rw [replQuoteMarks_append_noNL c _ (hnl c (List.mem_cons_self c (c2 :: cs'')))]
      rw [replQuoteMarks_nl]
      rw [ih (fun x hx => hnl x (List.mem_cons_of_mem c hx))]
      rfl

theorem stripQuoteHead_sp (X : List Char) : stripQuoteHead ('>' :: ' ' :: X) = X := by
  rw [stripQuoteHead.eq_def]
  split
  · next c t heq =>
    injection heq with _ hrest
    injection hrest with h2 ht
    subst h2 ht
    rw [if_pos (by decide)]
  · next h => exact absurd rfl (h ' ' X)

theorem strip_repl_render (cs : List (List Char)) (c0 : List Char) (cs0 : List (List Char))
    (hcs : cs = c0 :: cs0) (hnl : ∀ c ∈ cs, '\n' ∉ c) :
    stripQuoteHead (replQuoteMarks (quoteLinesRender cs)) = linesJoin cs := by
  subst hcs
  rw [show quoteLinesRender (c0 :: cs0) = '>' :: ' ' :: quoteTailRender (c0 :: cs0) from rfl]
  rw [replQuoteMarks_cons_ne '>' _ (by decide), replQuoteMarks_cons_ne ' ' _ (by decide)]
  rw [replQuoteMarks_tail (c0 :: cs0) hnl]
  exact stripQuoteHead_sp _

theorem quoteTailRender_getLast? : ∀ (cs : List (List Char)) (lc : List Char) (d : Char),
    cs.getLast? = some lc → lc.getLast? = some d →
    (quoteTailRender cs).getLast? = some d := by
  intro cs
  induction cs with
  | nil => intro lc d h _; exact Option.noConfusion h
  | cons c cs' ih =>
    intro lc d hl hd
    cases cs' with
    | nil =>
      have hc : c = lc := by simpa using hl
      subst hc
      simpa [quoteTailRender] using hd
    | cons c2 cs'' =>
      have hl' : (c2 :: cs'').getLast? = some lc := by
        rw [← hl]
        rfl
      have hT := ih lc d hl' hd
      rw [show quoteTailRender (c :: c2 :: cs'') =
        c ++ '\n' :: '>' :: ' ' :: quoteTailRender (c2 :: cs'') from rfl]
      rw [List.getLast?_append]
      rw [show ('\n' :: '>' :: ' ' :: quoteTailRender (c2 :: cs'')) =
        ['\n', '>', ' '] ++ quoteTailRender (c2 :: cs'') from rfl]
      rw [List.getLast?_append, hT]
      rfl

theorem quoteLinesRender_getLast? (cs : List (List Char)) (c0 : List Char)
    (cs0 : List (List Char)) (lc : List Char) (d : Char)
    (hcs : cs = c0 :: cs0) (hl : cs.getLast? = some lc) (hd : lc.getLast? = some d) :
    (quoteLinesRender cs).getLast? = some d := by
  subst hcs
  rw [show quoteLinesRender (c0 :: cs0) = ['>', ' '] ++ quoteTailRender (c0 :: cs0) from rfl]
  rw [List.getLast?_append, quoteTailRender_getLast? (c0 :: cs0) lc d hl hd]
  rfl

theorem jsTrim_id_of (s : List Char)
    (hh : ∀ c, s.head? = some c → ¬ isJsSpace c)
    (hl : ∀ c, s.getLast? = some c → ¬ isJsSpace c) :
    jsTrim s = s := by
  unfold jsTrim
  have h1 : s.dropWhile isJsSpace = s := by
    cases s with
    | nil => rfl
    | cons a t =>
      rw [List.dropWhile_cons_of_neg]
      simpa using hh a rfl
  rw [h1]
  have h2 : s.reverse.dropWhile isJsSpace = s.reverse := by
    cases hrev : s.reverse with
    | nil => rfl
    | cons a t =>
      rw [List.dropWhile_cons_of_neg]
      have hla : s.getLast? = some a := by
        rw [List.getLast?_eq_head?_reverse, hrev]
        rfl
      simpa using hl a hla
  rw [h2, List.reverse_reverse]

theorem headingMatch_gt (t : List Char) : headingMatch ('>' :: t) = none := by
  unfold headingMatch
  rw [if_neg]
  intro h
  rw [List.takeWhile_cons_of_neg (by decide)] at h
  simp at h

theorem quoteMatchLoop_none (s : List Char) (h : quoteLineMatch s = none) :
    quoteMatchLoop s = none := by
  rw [quoteMatchLoop]
  split
  · rfl
  · next line r hql => rw [h] at hql; exact Option.noConfusion hql

theorem quoteMatchLoop_render_tail : ∀ cs : List (List Char), cs ≠ [] →
    (∀ c ∈ cs, '\n' ∉ c) → ∀ r2 : List Char, quoteLineMatch r2 = none →
    quoteMatchLoop (quoteLinesRender cs ++ '\n' :: r2) =
      some (quoteLinesRender cs ++ ['\n'], r2) := by
  intro cs
  induction cs with
  | nil => intro h _; exact absurd rfl h
  | cons c cs' ih =>
    intro _ hnl r2 hr2
    cases cs' with
    | nil =>
      rw [show quoteLinesRender [c] ++ '\n' :: r2 = '>' :: ' ' :: (c ++ '\n' :: r2) from rfl]
      rw [quoteMatchLoop_step ('>' :: ' ' :: (c ++ '\n' :: r2)) ('>' :: ' ' :: (c ++ ['\n'])) r2
        (quoteLineMatch_mid c r2 (hnl c (List.mem_cons_self c [])))]
      rw [quoteMatchLoop_none r2 hr2]
      rw [show quoteLinesRender [c] = '>' :: ' ' :: c from rfl]
      simp [List.append_assoc]
    | cons c2 cs'' =>
      have hshape : quoteLinesRender (c :: c2 :: cs'') ++ '\n' :: r2 =
          '>' :: ' ' :: (c ++ '\n' :: (quoteLinesRender (c2 :: cs'') ++ '\n' :: r2)) := by
        rw [show quoteLinesRender (c :: c2 :: cs'') =
          '>' :: ' ' :: (c ++ '\n' :: quoteLinesRender (c2 :: cs'')) from rfl]
        simp [List.append_assoc]
      rw [hshape]
      rw [quoteMatchLoop_step
        ('>' :: ' ' :: (c ++ '\n' :: (quoteLinesRender (c2 :: cs'') ++ '\n' :: r2)))
        ('>' :: ' ' :: (c ++ ['\n'])) (quoteLinesRender (c2 :: cs'') ++ '\n' :: r2)
        (quoteLineMatch_mid c (quoteLinesRender (c2 :: cs'') ++ '\n' :: r2)
          (hnl c (List.mem_cons_self c (c2 :: cs''))))]
      rw [ih (by simp) (fun x hx => hnl x (List.mem_cons_of_mem c hx)) r2 hr2]
      rw [show quoteLinesRender (c :: c2 :: cs'') =
        '>' :: ' ' :: (c ++ '\n' :: quoteLinesRender (c2 :: cs'')) from rfl]
      simp [List.append_assoc]

theorem jsTrim_cons_nl (r : List Char) : jsTrim ('\n' :: r) = jsTrim r := by
  unfold jsTrim
  rw [List.dropWhile_cons_of_pos (by decide)]

theorem jsTrim_ne_nil_of_head (c : Char) (t : List Char) (hc : ¬ isJsSpace c = true) :
    jsTrim (c :: t) ≠ [] := by
  unfold jsTrim
  intro h
  rw [List.dropWhile_cons_of_neg (by simpa using hc)] at h
  rw [List.reverse_eq_nil_iff] at h
  rw [List.dropWhile_eq_nil_iff] at h
  exact hc (by simpa using h c (by simp))

theorem jsTrim_append_nl (s : List Char)
    (hh : ∀ c, s.head? = some c → ¬ isJsSpace c = true)
    (hl : ∀ c, s.getLast? = some c → ¬ isJsSpace c = true) :
    jsTrim (s ++ ['\n']) = s := by
  cases s with
  | nil => rfl
  | cons a t =>
    unfold jsTrim
    rw [List.cons_append, List.dropWhile_cons_of_neg (by simpa using hh a rfl)]
    rw [show a :: (t ++ ['\n']) = (a :: t) ++ ['\n'] from by simp]
    rw [List.reverse_append]
    rw [show (['\n'] : List Char).reverse ++ (a :: t).reverse =
      '\n' :: (a :: t).reverse from rfl]
    rw [List.dropWhile_cons_of_pos (by decide)]
    have h2 : (a :: t).reverse.dropWhile isJsSpace = (a :: t).reverse := by
      cases hrev : (a :: t).reverse with
      | nil => rfl
      | cons b u =>
        rw [List.dropWhile_cons_of_neg]
        have hlb : (a :: t).getLast? = some b := by
          rw [List.getLast?_eq_head?_reverse, hrev]
          rfl
        simpa using hl b hlb
    rw [h2, List.reverse_reverse]

/-- Corrected claim C7 (amended): the quote rule requires a whitespace
character after each quote marker (quoteRegexp, parser.ts line 82), so a
line whose marker is immediately followed by a non-space character falls
through to the paragraph rule.  For every document beginning with one or
more lines each written as the marker plus a single space plus content —
the last of those lines ending in a non-whitespace character — followed by
either the end of input or a newline and a remainder that does not itself
begin with a quote-marked line, parseBlocks matches those lines as a
single Quote block whose body is the lines with the markers stripped and
the newlines preserved, followed by the blocks of the trimmed remainder. -/
theorem quote_space_marked_lines_parse_as_single_quote_block
    (cs : List (List Char)) (c0 lc : List Char) (cs0 : List (List Char)) (d : Char)
    (after : List Char)
    (hcs : cs = c0 :: cs0)
    (hnl : ∀ c ∈ cs, '\n' ∉ c)
    (hl : cs.getLast? = some lc)
    (hlc : lc.getLast? = some d)
    (hd : ¬ isJsSpace d = true)
    (hafter : after = [] ∨ ∃ r2, after = '\n' :: r2 ∧ quoteLineMatch r2 = none) :
    parseBlocks (quoteLinesRender cs ++ after) =
      (match parseTextBody (linesJoin cs) with
       | none => Except.error ParseError.textBodyCrash
       | some spans =>
         match parseBlocks (jsTrim after) with
         | .error e => .error e
         | .ok bs => .ok (Block.quote spans :: bs)) := by
  have hner : quoteLinesRender cs ≠ [] := by
    rw [hcs]
    exact List.cons_ne_nil _ _
  have hhead : (quoteLinesRender cs).head? = some '>' := by
    rw [hcs]
    rfl
  have hlastd : (quoteLinesRender cs).getLast? = some d :=
    quoteLinesRender_getLast? cs c0 cs0 lc d hcs hl hlc
  have hhh : ∀ c, (quoteLinesRender cs).head? = some c → ¬ isJsSpace c = true := by
    intro c hc
    rw [hhead] at hc
    injection hc with h
    subst h
    decide
  have hll : ∀ c, (quoteLinesRender cs).getLast? = some c → ¬ isJsSpace c = true := by
    intro c hc
    rw [hlastd] at hc
    injection hc with h
    subst h
    exact hd
  have hq0 : quoteMatchLoop (quoteLinesRender cs) =
      some (quoteLinesRender cs, []) :=
    quoteMatchLoop_render cs (by rw [hcs]; exact List.cons_ne_nil _ _) hnl
  rcases hafter with rfl | ⟨r2, rfl, hr2⟩
  · rw [List.append_nil]
    have htrim : jsTrim (quoteLinesRender cs) = quoteLinesRender cs :=
      jsTrim_id_of _ hhh hll
    have hqm : quoteMatch (quoteLinesRender cs) = some (quoteLinesRender cs) := by
      unfold quoteMatch
      rw [hq0]
      rfl
    have hhm : headingMatch (quoteLinesRender cs) = none := by
      rw [hcs]
      rw [show quoteLinesRender (c0 :: cs0) = '>' :: ' ' :: quoteTailRender (c0 :: cs0) from rfl]
      exact headingMatch_gt _
    have hfrm : firstRuleMatch regexpToParserPairs (quoteLinesRender cs) =
        some (quoteLinesRender cs, parseQuoteBlock) := by
      rw [regexpToParserPairs,
        firstRuleMatch_cons_none _ _ _ _ hhm,
        firstRuleMatch_cons_some _ _ _ _ _ hqm]
    have h0 : ¬ jsTrim (quoteLinesRender cs) = [] := by
      rw [htrim]
      exact hner
    rw [parseBlocks_step (quoteLinesRender cs) (quoteLinesRender cs) parseQuoteBlock h0 hfrm]
    rw [htrim]
    rw [parseQuoteBlock_step (quoteLinesRender cs) (quoteLinesRender cs) [] hq0]
    rw [strip_repl_render cs c0 cs0 hcs hnl]
    rw [List.drop_length]
    rw [show jsTrim ([] : List Char) = [] from rfl]
    rw [parseBlocks_nil]
    cases hpt : parseTextBody (linesJoin cs) <;> rfl
  · have hqmid : quoteMatchLoop (quoteLinesRender cs ++ '\n' :: r2) =
        some (quoteLinesRender cs ++ ['\n'], r2) :=
      quoteMatchLoop_render_tail cs (by rw [hcs]; exact List.cons_ne_nil _ _) hnl r2 hr2
    have hqm : quoteMatch (quoteLinesRender cs ++ '\n' :: r2) =
        some (quoteLinesRender cs ++ ['\n']) := by
      unfold quoteMatch
      rw [hqmid]
      rfl
    have hshape : quoteLinesRender cs ++ '\n' :: r2 =
        '>' :: ' ' :: (quoteTailRender cs ++ '\n' :: r2) := by
      rw [hcs]
      rfl
    have hhm : headingMatch (quoteLinesRender cs ++ '\n' :: r2) = none := by
      rw [hshape]
      exact headingMatch_gt _
    have hfrm : firstRuleMatch regexpToParserPairs (quoteLinesRender cs ++ '\n' :: r2) =
        some (quoteLinesRender cs ++ ['\n'], parseQuoteBlock) := by
      rw [regexpToParserPairs,
        firstRuleMatch_cons_none _ _ _ _ hhm,
        firstRuleMatch_cons_some _ _ _ _ _ hqm]
    have h0 : ¬ jsTrim (quoteLinesRender cs ++ '\n' :: r2) = [] := by
      rw [hshape]
      exact jsTrim_ne_nil_of_head '>' _ (by decide)
    rw [parseBlocks_step (quoteLinesRender cs ++ '\n' :: r2) (quoteLinesRender cs ++ ['\n'])
      parseQuoteBlock h0 hfrm]
    rw [jsTrim_append_nl (quoteLinesRender cs) hhh hll]
    rw [parseQuoteBlock_step (quoteLinesRender cs) (quoteLinesRender cs) [] hq0]
    rw [strip_repl_render cs c0 cs0 hcs hnl]
    have hdrop : (quoteLinesRender cs ++ '\n' :: r2).drop (quoteLinesRender cs ++ ['\n']).length = r2 := by
      rw [show quoteLinesRender cs ++ '\n' :: r2 = (quoteLinesRender cs ++ ['\n']) ++ r2 from by simp]
      exact List.drop_left _ _
    rw [hdrop]
    rw [jsTrim_cons_nl r2]
    cases hpt : parseTextBody (linesJoin cs) <;> rfl

/-- Witness for the amended C7 at the document "> a\nP": a quote line
followed by a paragraph line. -/
theorem quote_space_marked_lines_parse_as_single_quote_block_witness :
    parseBlocks (quoteLinesRender [['a']] ++ '\n' :: ['P']) =
      (match parseTextBody (linesJoin [['a']]) with
       | none => Except.error ParseError.textBodyCrash
       | some spans =>
         match parseBlocks (jsTrim ('\n' :: ['P'])) with
         | .error e => .error e
         | .ok bs => .ok (Block.quote spans :: bs)) :=
  quote_space_marked_lines_parse_as_single_quote_block [['a']] ['a'] ['a'] [] 'a'
    ('\n' :: ['P']) rfl (by decide) (by decide) (by decide) (by decide)
    (Or.inr ⟨['P'], rfl, by decide⟩)
